import Mathlib

/-!
Shallow embedding of the workflow-orchestration core of the agentic
mobile-app-builder repository, and proofs about it.

The embedding covers:
* the model selector (src/orchestration/model-selector.js),
* the agent registry and `topologicalSortAgents` (src/orchestration/agent-configs.js),
* the session manager (src/orchestration/session-manager.js),
* the workflow engine's execution / retry / checkpoint / resume paths
  (src/orchestration/workflow-engine.js).

JavaScript objects used as string-keyed maps (`run.context`, `session.context`,
the in-degree and adjacency maps of Kahn's algorithm) are modelled as functions
out of `String`; property assignment is pointwise update.  Generated identifiers
(uuids) and wall-clock timestamps carried by the source records are omitted:
no modelled behaviour reads them.  External collaborators (the agent runner,
task store, git/PR managers) are parameters of the engine model, as the spec
treats them as interfaces.
-/

namespace AppBuilder

/-- Output of an agent run, as produced by the response parser boundary.
Only the fields the orchestration layer reads are modelled. -/
structure AgentOutput where
  success : Bool
  summary : String
  tokensUsed : Nat
  deriving DecidableEq, Repr

/-- A value stored in a string-keyed context object: agent outputs under
`<agent>_output` keys, retry counters under `<agent>_retries` keys, and
plain string fields such as `complexity`. -/
inductive CtxVal where
  | num (n : Nat)
  | str (s : String)
  | out (o : AgentOutput)
  deriving DecidableEq, Repr

/-- A JavaScript object used as a map from string keys to values
(`run.context`, `session.context`). -/
abbrev Ctx := String → Option CtxVal

/-- Property assignment `ctx[k] = v`. -/
def Ctx.set (c : Ctx) (k : String) (v : CtxVal) : Ctx :=
  fun k2 => if k2 = k then some v else c k2

/-- The empty object `{}`. -/
def Ctx.empty : Ctx := fun _ => none

/-- Static per-agent configuration (agent-configs.js `AGENT_CONFIGS` entries).
The capability flags and prompt file are irrelevant to the orchestration
semantics and are omitted. -/
structure AgentConfig where
  name : String
  dependencies : List String
  defaultModel : String
  maxRetries : Nat
  timeoutMs : Nat
  deriving DecidableEq, Repr

/-- Lookup in the frozen `AGENT_CONFIGS` table (agent-configs.js). -/
def getAgentConfig (agentType : String) : Option AgentConfig :=
  match agentType with
  | "PM" => some { name := "Project Manager", dependencies := [], defaultModel := "opus", maxRetries := 3, timeoutMs := 300000 }
  | "ARCHITECT" => some { name := "System Architect", dependencies := ["PM"], defaultModel := "opus", maxRetries := 3, timeoutMs := 300000 }
  | "UIUX" => some { name := "UI/UX Designer", dependencies := ["PM"], defaultModel := "sonnet", maxRetries := 3, timeoutMs := 240000 }
  | "TL_FRONTEND" => some { name := "Tech Lead - Frontend", dependencies := ["ARCHITECT", "UIUX"], defaultModel := "sonnet", maxRetries := 3, timeoutMs := 240000 }
  | "TL_BACKEND" => some { name := "Tech Lead - Backend", dependencies := ["ARCHITECT"], defaultModel := "sonnet", maxRetries := 3, timeoutMs := 240000 }
  | "DEV_FRONTEND" => some { name := "Frontend Developer", dependencies := ["TL_FRONTEND"], defaultModel := "sonnet", maxRetries := 3, timeoutMs := 360000 }
  | "DEV_BACKEND" => some { name := "Backend Developer", dependencies := ["TL_BACKEND"], defaultModel := "sonnet", maxRetries := 3, timeoutMs := 360000 }
  | "TEST" => some { name := "Test Engineer", dependencies := ["DEV_FRONTEND", "DEV_BACKEND"], defaultModel := "sonnet", maxRetries := 3, timeoutMs := 300000 }
  | "CQR" => some { name := "Code Quality Reviewer", dependencies := ["DEV_FRONTEND", "DEV_BACKEND"], defaultModel := "sonnet", maxRetries := 3, timeoutMs := 240000 }
  | "SR" => some { name := "Security Reviewer", dependencies := ["DEV_FRONTEND", "DEV_BACKEND"], defaultModel := "opus", maxRetries := 3, timeoutMs := 300000 }
  | "DOE" => some { name := "DevOps Engineer", dependencies := ["DEV_FRONTEND", "DEV_BACKEND"], defaultModel := "haiku", maxRetries := 3, timeoutMs := 180000 }
  | _ => none

/-- Dependency lookup (agent-configs.js `getAgentDependencies`):
`config ? config.dependencies : []`. -/
def getAgentDependencies (agentType : String) : List String :=
  match getAgentConfig agentType with
  | some config => config.dependencies
  | none => []

/-! ### Model selector (model-selector.js) -/

/-- The `MODEL_HIERARCHY` table: haiku 0, sonnet 1, opus 2; `none` models a
JavaScript `undefined` lookup for a string that is not a tier. -/
def MODEL_HIERARCHY (tier : String) : Option Nat :=
  if tier = "haiku" then some 0
  else if tier = "sonnet" then some 1
  else if tier = "opus" then some 2
  else none

/-- Membership in `Object.values(ModelTier)` (model-selector.js `isValidTier`). -/
def isValidTier (tier : String) : Bool :=
  ["opus", "sonnet", "haiku"].contains tier

/-- The selector's mutable `options` record, set through `configure`. -/
structure ModelSelectorOptions where
  maxTier : String
  overrides : String → Option String
  optimizeCost : Bool

/-- The `enforceMaxTier` method.  The `?? MODEL_HIERARCHY[OPUS]` and
`?? MODEL_HIERARCHY[SONNET]` fallbacks of the source are the literal
values 2 and 1. -/
def enforceMaxTier (opts : ModelSelectorOptions) (tier : String) : String :=
  let maxLevel := (MODEL_HIERARCHY opts.maxTier).getD 2
  let requestedLevel := (MODEL_HIERARCHY tier).getD 1
  if requestedLevel > maxLevel then opts.maxTier else tier

/-- The `downgrade` method: level 0 and 1 map to haiku, every other lookup
result (level 2, or an undefined lookup) falls through to sonnet. -/
def downgrade (tier : String) : String :=
  match MODEL_HIERARCHY tier with
  | some 0 => "haiku"
  | some 1 => "haiku"
  | _ => "sonnet"

/-- The `upgrade` method: level 0 maps to sonnet, level 1 to opus, every
other lookup result falls through to opus. -/
def upgrade (tier : String) : String :=
  match MODEL_HIERARCHY tier with
  | some 0 => "sonnet"
  | some 1 => "opus"
  | _ => "opus"

/-- JavaScript `a || b` on a possibly-undefined string `a`: the fallback is
taken when `a` is undefined or the empty string (the only falsy strings). -/
def jsOrStr (a : Option String) (b : String) : String :=
  match a with
  | some s => if s = "" then b else s
  | none => b

/-- The frozen `DEFAULT_MODEL_MAPPINGS` table of model-selector.js. -/
def DEFAULT_MODEL_MAPPINGS (agentType : String) : Option String :=
  match agentType with
  | "PM" => some "opus"
  | "ARCHITECT" => some "opus"
  | "UIUX" => some "sonnet"
  | "TL_FRONTEND" => some "sonnet"
  | "TL_BACKEND" => some "sonnet"
  | "DEV_FRONTEND" => some "sonnet"
  | "DEV_BACKEND" => some "sonnet"
  | "TEST" => some "sonnet"
  | "CQR" => some "sonnet"
  | "SR" => some "opus"
  | "DOE" => some "haiku"
  | _ => none

/-- The `agentConfig?.defaultModel || DEFAULT_MODEL_MAPPINGS[agentType] ||
ModelTier.SONNET` chain of `selectModel`. -/
def defaultModelChain (agentType : String) : String :=
  jsOrStr ((getAgentConfig agentType).map (fun c => c.defaultModel))
    (jsOrStr (DEFAULT_MODEL_MAPPINGS agentType) "sonnet")

/-- The no-override path of `selectModel`: default tier, optional
complexity-based downgrade/upgrade, then the max-tier clamp. -/
def selectModelDefaultPath (opts : ModelSelectorOptions) (agentType : String)
    (context : Ctx) : String :=
  enforceMaxTier opts
    (if context ("complexity") = some (.str "low") ∧ opts.optimizeCost = true then
       downgrade (defaultModelChain agentType)
     else if context ("complexity") = some (.str "high") then
       upgrade (defaultModelChain agentType)
     else defaultModelChain agentType)

/-- The `selectModel` method: a truthy per-agent override short-circuits to
`enforceMaxTier(override)`; otherwise the default path runs. -/
def selectModel (opts : ModelSelectorOptions) (agentType : String) (context : Ctx) : String :=
  match opts.overrides agentType with
  | some ov => if ov = "" then selectModelDefaultPath opts agentType context
               else enforceMaxTier opts ov
  | none => selectModelDefaultPath opts agentType context

/-! ### Session manager (session-manager.js)

Sessions are keyed by id in a write-through cache plus one JSON file per
session; every mutator reads the session, updates it and synchronously
persists it.  Since every operation touches a single session, the
operations are modelled as pure functions on one `Session` value. -/

/-- The frozen `SessionStatus` enum. -/
inductive SessionStatus where
  | running
  | paused
  | completed
  | failed
  deriving DecidableEq, Repr

/-- A session log entry, identified by its `type` tag; the payload fields
and the timestamp added by `addLog` are not read by any modelled code. -/
abbrev LogEntry := String

/-- An entry of `session.metadata.agentExecutions`
(`recordAgentExecution`'s argument). -/
structure ExecRecord where
  agentType : String
  status : String
  tokensUsed : Option Nat
  executionTime : Option Nat
  error : Option String
  deriving DecidableEq, Repr

/-- The `session.metadata` aggregate. -/
structure SessionMetadata where
  totalTokens : Nat
  totalExecutionTime : Nat
  agentExecutions : List ExecRecord

/-- The serialized `state` blob stored in a checkpoint by the engine:
`{ currentStageIndex, context }` (workflow-engine.js `executeWorkflow`). -/
structure CheckpointState where
  currentStageIndex : Nat
  context : Ctx

/-- A persisted checkpoint record (uuid and timestamp omitted). -/
structure Checkpoint where
  stageIndex : Nat
  stageName : String
  completedAgents : List String
  state : CheckpointState

/-- A persisted session record (uuid, timestamps and options omitted). -/
structure Session where
  status : SessionStatus
  workflowId : String
  context : Ctx
  checkpoints : List Checkpoint
  logs : List LogEntry
  completedAgents : List String
  currentStage : Nat
  metadata : SessionMetadata
  error : Option String
  result : Option String

/-- The `createSession` method. -/
def createSession (workflowId : String) (context : Ctx) : Session :=
  { status := SessionStatus.running, workflowId := workflowId, context := context,
    checkpoints := [], logs := [], completedAgents := [], currentStage := 0,
    metadata := { totalTokens := 0, totalExecutionTime := 0, agentExecutions := [] },
    error := none, result := none }

/-- The extra fields merged into the session by `updateStatus` via
`Object.assign`.  The engine passes `{error}` from `markFailed` and
`{result}` from `markCompleted`; a `context` key would overwrite the
session's context, which no caller does. -/
structure StatusPatch where
  error : Option String
  result : Option String
  context : Option Ctx

/-- One key of an `Object.assign` merge: a provided value overwrites,
an absent key leaves the old value. -/
def mergeField {α : Type} (patch : Option α) (old : α) : α :=
  match patch with
  | some v => v
  | none => old

/-- The `updateStatus` method (without the not-found throw, which cannot
occur in a per-session model). -/
def updateStatus (s : Session) (status : SessionStatus) (patch : StatusPatch) : Session :=
  { s with status := status,
           error := mergeField (patch.error.map some) s.error,
           result := mergeField (patch.result.map some) s.result,
           context := mergeField patch.context s.context }

/-- The `markFailed` method: `updateStatus(id, FAILED, { error })`. -/
def markFailed (s : Session) (error : String) : Session :=
  updateStatus s SessionStatus.failed { error := some error, result := none, context := none }

/-- The `markCompleted` method: `updateStatus(id, COMPLETED, { result })`. -/
def markCompleted (s : Session) (result : String) : Session :=
  updateStatus s SessionStatus.completed { error := none, result := some result, context := none }

/-- The data argument of `checkpoint`. -/
structure CheckpointData where
  stageIndex : Nat
  stageName : String
  completedAgents : List String
  state : CheckpointState

/-- The `checkpoint` method: append the checkpoint, advance `currentStage`
to `stageIndex + 1`, replace the completed-agents snapshot. -/
def checkpoint (s : Session) (data : CheckpointData) : Session :=
  let cp : Checkpoint :=
    { stageIndex := data.stageIndex, stageName := data.stageName,
      completedAgents := data.completedAgents, state := data.state }
  { s with checkpoints := s.checkpoints ++ [cp],
           currentStage := data.stageIndex + 1,
           completedAgents := cp.completedAgents }

/-- The `restore` method.  Errors model the thrown exceptions; on success
the session is flipped back to `running` and returned together with the
most recent checkpoint (or `none` if there is none). -/
def restore (s : Session) : Except String (Session × Option Checkpoint) :=
  if s.status = SessionStatus.completed then
    .error ("Cannot resume completed session")
  else if s.checkpoints.length = 0 ∧ s.status = SessionStatus.failed then
    .error ("No checkpoints available for resumption")
  else
    let latestCheckpoint :=
      if s.checkpoints.length > 0 then s.checkpoints.getLast? else none
    .ok ({ s with status := SessionStatus.running }, latestCheckpoint)

/-- The `addLog` method: append, then keep only the last 1000 entries. -/
def addLog (s : Session) (logEntry : LogEntry) : Session :=
  let logs := s.logs ++ [logEntry]
  { s with logs := if logs.length > 1000 then logs.rtake 1000 else logs }

/-- JavaScript `if (v) total += v` on a possibly-undefined number. -/
def jsAddOpt (total : Nat) (v : Option Nat) : Nat :=
  match v with
  | some n => if n = 0 then total else total + n
  | none => total

/-- The `recordAgentExecution` method: append the execution record, add the
truthy token/time numbers into the totals, and push the agent onto
`completedAgents` when the recorded status is `completed`. -/
def recordAgentExecution (s : Session) (execution : ExecRecord) : Session :=
  { s with
    metadata :=
      { totalTokens := jsAddOpt s.metadata.totalTokens execution.tokensUsed,
        totalExecutionTime := jsAddOpt s.metadata.totalExecutionTime execution.executionTime,
        agentExecutions := s.metadata.agentExecutions ++ [execution] },
    completedAgents :=
      if execution.status = "completed" then s.completedAgents ++ [execution.agentType]
      else s.completedAgents }

/-- The `isResumable` method. -/
def isResumable (s : Session) : Bool :=
  (decide (s.status = SessionStatus.failed) || decide (s.status = SessionStatus.paused))
    && (decide (s.checkpoints.length > 0) || decide (s.completedAgents.length > 0))

/-! ### Workflow engine (workflow-engine.js)

The engine drives an in-memory run (`run.context`, `run.completedAgents`)
against a session.  The external agent runner together with the response
parser is a parameter `exec : Ctx → Except String AgentOutput`: it consumes
the run context (serialized with the dependency outputs gathered from that
same context) and either yields a parsed output or fails (including
timeouts).  Side effects on the external task store, the event emitter and
git are not part of the session/run state and are not modelled.  Parallel
stages are executed in agent-list order here; the claims proved below only
concern sequential stages. -/

/-- The retry counter read `run.context[agentType_retries] || 0`. -/
def retriesOf (context : Ctx) (agentType : String) : Nat :=
  match context (agentType ++ "_retries") with
  | some (.num n) => n
  | _ => 0

/-- The run-and-session state threaded through agent execution: the run's
mutable `context` and `completedAgents` plus the backing session. -/
structure SpawnState where
  context : Ctx
  completedAgents : List String
  session : Session

/-- One `spawnAndExecuteAgent` call including its retry recursion
(workflow-engine.js lines 285-436), with the effects on the run context,
the run's completed set and the session.  `maxRetries` is the agent's
configured `agentConfig.maxRetries`.  The third component of the result
counts how many times the external runner was invoked.  The recursion of
the source is bounded because the retry counter read from the context
grows by one per round; `fuel` makes that bound structural, and
`spawnAndExecuteAgent` below supplies a provably sufficient amount. -/
def spawnLoop (agentType : String) (maxRetries : Nat)
    (exec : Ctx → Except String AgentOutput) :
    Nat → SpawnState → Except String AgentOutput × SpawnState × Nat
  | 0, st => (.error ("spawn fuel exhausted"), st, 0)
  | fuel + 1, st =>
    let st1 : SpawnState := { st with session := addLog st.session ("agent_spawned") }
    match exec st1.context with
    | .ok output =>
        let st2 : SpawnState :=
          { st1 with
            context := st1.context.set (agentType ++ "_output") (.out output),
            completedAgents := st1.completedAgents ++ [agentType],
            session := recordAgentExecution st1.session
              { agentType := agentType, status := "completed",
                tokensUsed := some output.tokensUsed, executionTime := none, error := none } }
        (.ok output, st2, 1)
    | .error e =>
        let failedRec : ExecRecord :=
          { agentType := agentType, status := "failed", tokensUsed := none,
            executionTime := none, error := some e }
        let st2 : SpawnState :=
          { st1 with session := recordAgentExecution st1.session failedRec }
        let retries := retriesOf st2.context agentType
        if retries < maxRetries then
          let st3 : SpawnState :=
            { st2 with
              context := st2.context.set (agentType ++ "_retries") (.num (retries + 1)),
              session := addLog st2.session ("agent_retry") }
          match spawnLoop agentType maxRetries exec fuel st3 with
          | (r, st4, n) => (r, st4, n + 1)
        else (.error e, st2, 1)

/-- The `spawnAndExecuteAgent` entry point: at most `maxRetries + 1`
attempts happen, so that much fuel always suffices. -/
def spawnAndExecuteAgent (agentType : String) (maxRetries : Nat)
    (exec : Ctx → Except String AgentOutput) (st : SpawnState) :
    Except String AgentOutput × SpawnState × Nat :=
  spawnLoop agentType maxRetries exec (maxRetries + 1) st

/-- The `gatherDependencyOutputs` method: for each declared dependency,
pick up a truthy `dep_output` entry of the run context. -/
def gatherDependencyOutputs (context : Ctx) (agentType : String) :
    List (String × CtxVal) :=
  (getAgentDependencies agentType).filterMap (fun depType =>
    match context (depType ++ "_output") with
    | some v => some (depType, v)
    | none => none)

/-- A stage of a workflow definition (predefined-workflows.js). -/
structure StageDef where
  name : String
  agents : List String
  executionMode : String

/-- The agent loop of `executeStage`, in agent-list order; a failed agent
(after its retries) aborts the remainder of the stage with its error. -/
def executeAgentsSeq (maxRetriesFor : String → Nat)
    (execFor : String → Ctx → Except String AgentOutput) :
    List String → SpawnState → Except String Unit × SpawnState
  | [], st => (.ok (), st)
  | agentType :: rest, st =>
    match spawnAndExecuteAgent agentType (maxRetriesFor agentType) (execFor agentType) st with
    | (.ok _, st2, _) => executeAgentsSeq maxRetriesFor execFor rest st2
    | (.error e, st2, _) => (.error e, st2)

/-- The `executeStage` method: agents already in `run.completedAgents` are
filtered out, the rest run. -/
def executeStage (maxRetriesFor : String → Nat)
    (execFor : String → Ctx → Except String AgentOutput)
    (stage : StageDef) (st : SpawnState) : Except String Unit × SpawnState :=
  let agentsToRun := stage.agents.filter (fun a => !st.completedAgents.contains a)
  executeAgentsSeq maxRetriesFor execFor agentsToRun st

/-- The stage loop of `executeWorkflow`: per stage, log `stage_started`,
run the stage, then checkpoint the session with the stage index, stage
name, current completed set and the `{ currentStageIndex, context }` state
blob. -/
def executeStages (maxRetriesFor : String → Nat)
    (execFor : String → Ctx → Except String AgentOutput) :
    List (Nat × StageDef) → SpawnState → Except String Unit × SpawnState
  | [], st => (.ok (), st)
  | (i, stage) :: rest, st =>
    let st1 : SpawnState := { st with session := addLog st.session ("stage_started") }
    match executeStage maxRetriesFor execFor stage st1 with
    | (.ok _, st2) =>
        let cpData : CheckpointData :=
          { stageIndex := i, stageName := stage.name,
            completedAgents := st2.completedAgents,
            state := { currentStageIndex := i + 1, context := st2.context } }
        let st3 : SpawnState := { st2 with session := checkpoint st2.session cpData }
        executeStages maxRetriesFor execFor rest st3
    | (.error e, st2) => (.error e, st2)

/-- The session-visible behaviour of `startWorkflow`: create the session,
log `workflow_started`, run all stages from index 0 on a fresh run whose
context is a copy of the request context; on success mark the session
completed, on any thrown error mark it failed with the error message and
re-raise.  Branch/PR side effects towards git are outside the model. -/
def startWorkflow (maxRetriesFor : String → Nat)
    (execFor : String → Ctx → Except String AgentOutput)
    (workflowId : String) (stages : List StageDef) (context : Ctx) :
    Except String Unit × Session :=
  let session := createSession workflowId context
  let session1 := addLog session ("workflow_started")
  let st0 : SpawnState := { context := context, completedAgents := [], session := session1 }
  match executeStages maxRetriesFor execFor stages.enum st0 with
  | (.ok _, st) => (.ok (), markCompleted st.session ("done"))
  | (.error e, st) => (.error e, markFailed st.session e)

/-- The fields of the run reconstructed by `resumeWorkflow` that later
stages read. -/
structure WorkflowRun where
  context : Ctx
  currentStageIndex : Nat
  completedAgents : List String

/-- The `checkpoint?.stageIndex + 1 || session.currentStage` expression of
`resumeWorkflow`: with a checkpoint the sum is a positive number (hence
truthy); without one the addition yields NaN (falsy) and the session's
recorded current stage is used. -/
def resumedStageIndex (cp : Option Checkpoint) (session : Session) : Nat :=
  match cp with
  | some c => if c.stageIndex + 1 = 0 then session.currentStage else c.stageIndex + 1
  | none => session.currentStage

/-- The run reconstruction of `resumeWorkflow` (workflow-engine.js lines
608-639): restore the session, then build a run whose context is a copy of
`session.context`, whose stage index comes from the latest checkpoint and
whose completed set is the session's recorded one. -/
def resumeWorkflowRun (s : Session) : Except String WorkflowRun :=
  match restore s with
  | .error e => .error e
  | .ok (session, cp) =>
      .ok { context := session.context,
            currentStageIndex := resumedStageIndex cp session,
            completedAgents := session.completedAgents }

/-! ### Topological leveling (agent-configs.js `topologicalSortAgents`)

The dependency lookup is a parameter `getDeps`; the source reads it from
the agent registry (`getAgentDependencies`), so instantiating
`getDeps := getAgentDependencies` yields the source function.  The
in-degree and adjacency maps are functions out of `String`, built exactly
as the source builds them; the while-loop is driven by structural fuel,
and `agentTypes.length` fuel is proved sufficient below. -/

/-- An agent's declared dependencies restricted to the requested subset:
`getAgentDependencies(type).filter(d => agentTypes.includes(d))`. -/
def depsWithin (getDeps : String → List String) (agentTypes : List String)
    (t : String) : List String :=
  (getDeps t).filter (fun d => agentTypes.contains d)

/-- The initial in-degree map: each requested tag starts at the number of
its in-subset dependencies (with multiplicity), all other keys are the
map's absent-key default. -/
def initInDegree (getDeps : String → List String) (agentTypes : List String) :
    String → Nat :=
  fun t => if agentTypes.contains t then (depsWithin getDeps agentTypes t).length else 0

/-- One `adjacency.get(dep).push(type)` step. -/
def pushDependent (t : String) (adjacency : String → List String)
    (dep : String) : String → List String :=
  fun s => if s = dep then adjacency s ++ [t] else adjacency s

/-- The adjacency map: for each requested tag, push it onto the dependent
list of each of its in-subset dependencies. -/
def buildAdjacency (getDeps : String → List String) (agentTypes : List String) :
    String → List String :=
  agentTypes.foldl
    (fun adjacency t => (depsWithin getDeps agentTypes t).foldl (pushDependent t) adjacency)
    (fun _ => [])

/-- One `inDegree.set(dependent, inDegree.get(dependent) - 1)` step. -/
def decOne (inDegree : String → Nat) (dependent : String) : String → Nat :=
  fun s => if s = dependent then inDegree s - 1 else inDegree s

/-- The per-level decrement: for every tag of the level, decrement each of
its dependents. -/
def decLevel (adjacency : String → List String) (inDegree : String → Nat)
    (level : List String) : String → Nat :=
  level.foldl (fun m t => (adjacency t).foldl decOne m) inDegree

/-- The Kahn while-loop: take the zero-in-degree tags of `remaining` as the
next level, throw the circular-dependency error when the level is empty,
otherwise decrement dependents and recurse on the rest. -/
def topoLoop (adjacency : String → List String) (fuel : Nat)
    (remaining : List String) (inDegree : String → Nat) :
    Except String (List (List String)) :=
  if remaining.isEmpty then .ok []
  else
    match fuel with
    | 0 => .error ("Circular dependency detected in agent configuration")
    | f + 1 =>
      let currentLevel := remaining.filter (fun t => inDegree t == 0)
      if currentLevel.isEmpty then
        .error ("Circular dependency detected in agent configuration")
      else
        match topoLoop adjacency f (remaining.filter (fun t => !currentLevel.contains t))
            (decLevel adjacency inDegree currentLevel) with
        | .ok levels => .ok (currentLevel :: levels)
        | .error e => .error e

/-- The `topologicalSortAgents` function. -/
def topologicalSortAgents (getDeps : String → List String)
    (agentTypes : List String) : Except String (List (List String)) :=
  topoLoop (buildAdjacency getDeps agentTypes) agentTypes.length agentTypes
    (initInDegree getDeps agentTypes)

/-- The dependency relation of the registry restricted to a tag subset:
`DependsOn getDeps agentTypes d t` holds when `d` and `t` are in the
subset and `t` declares `d` as a dependency.  A cycle of this relation is
a `TransGen` loop. -/
def DependsOn (getDeps : String → List String) (agentTypes : List String)
    (d t : String) : Prop :=
  d ∈ agentTypes ∧ t ∈ agentTypes ∧ d ∈ getDeps t

/-! ### Concrete scenarios used by individual claims -/

/-- Configured retry bound for each agent, as the engine reads it from the
registry (`agentConfig.maxRetries`). -/
def configuredMaxRetries (agentType : String) : Nat :=
  match getAgentConfig agentType with
  | some config => config.maxRetries
  | none => 0

/-- Output produced by the PM agent in the resume scenario. -/
def pmOutput : AgentOutput := { success := true, summary := "plan", tokensUsed := 10 }

/-- External runner for the resume scenario: PM succeeds, every other
agent (here ARCHITECT) always fails. -/
def resumeScenarioExec (agentType : String) : Ctx → Except String AgentOutput :=
  fun _ => if agentType = "PM" then .ok pmOutput else .error ("boom")

/-- Two sequential stages: PM alone, then ARCHITECT (whose declared
dependency is PM) alone. -/
def resumeScenarioStages : List StageDef :=
  [ { name := "Planning", agents := ["PM"], executionMode := "sequential" },
    { name := "Architecture", agents := ["ARCHITECT"], executionMode := "sequential" } ]

/-- The session left behind by the failed prior run of the resume
scenario: stage 0 (PM) succeeded and was checkpointed, stage 1
(ARCHITECT) exhausted its retries, the workflow was marked failed. -/
def resumeScenarioSession : Session :=
  (startWorkflow configuredMaxRetries resumeScenarioExec ("FULL_APP_GENERATION")
    resumeScenarioStages Ctx.empty).2

/-- Session used for the failure-logging counterexample: a single stage
whose single agent always fails, with no retries configured. -/
def failLogScenarioSession : Session :=
  (startWorkflow (fun _ => 0) (fun _ _ => .error ("boom")) ("BUG_FIX")
    [ { name := "Investigation", agents := ["PM"], executionMode := "sequential" } ]
    Ctx.empty).2

/-- A completed session (for the checkpoint/restore counterexample). -/
def completedSession : Session :=
  { createSession ("BUG_FIX") Ctx.empty with status := SessionStatus.completed }

/-- Checkpoint payload with stage index 2. -/
def stageTwoData : CheckpointData :=
  { stageIndex := 2, stageName := "Verification", completedAgents := [],
    state := { currentStageIndex := 3, context := Ctx.empty } }

/-- A failed session with no checkpoints but one completed agent. -/
def failedNoCheckpointSession : Session :=
  { createSession ("BUG_FIX") Ctx.empty with
      status := SessionStatus.failed, completedAgents := ["PM"] }

/-- Selector options with a valid maximum tier and a per-agent override
that is not a member of the tier enumeration. -/
def invalidOverrideOptions : ModelSelectorOptions :=
  { maxTier := "sonnet",
    overrides := fun t => if t = "PM" then some ("mega") else none,
    optimizeCost := false }

/-- Selector options with maximum tier sonnet and no overrides. -/
def sonnetCapOptions : ModelSelectorOptions :=
  { maxTier := "sonnet", overrides := fun _ => none, optimizeCost := false }

/-! ## Theorems -/

/-- C6: `isResumable` is true exactly when the status is `failed` or
`paused` and the session has a checkpoint or a completed agent; the
particular cases of the claim (a `completed` session with checkpoints, a
`failed` session with neither, a `failed` session with a checkpoint) are
instances of this equivalence. -/
theorem isResumable_iff (s : Session) :
    isResumable s = true ↔
      ((s.status = SessionStatus.failed ∨ s.status = SessionStatus.paused) ∧
       (s.checkpoints ≠ [] ∨ s.completedAgents ≠ [])) := by
  simp [isResumable, List.length_pos]

/-- C9: a `failed` session with no checkpoints but a non-empty
completed-agents list is reported resumable by `isResumable`, yet
`restore` throws the no-checkpoints error on it. -/
theorem resumable_but_restore_fails (s : Session)
    (h1 : s.status = SessionStatus.failed) (h2 : s.checkpoints = [])
    (h3 : s.completedAgents ≠ []) :
    isResumable s = true ∧
      restore s = .error ("No checkpoints available for resumption") := by
  constructor
  · simp [isResumable, h1, h2, List.length_pos, h3]
  · simp [restore, h1, h2]

/-- Witness for C9 at a concrete failed session with one completed agent
and no checkpoints. -/
theorem resumable_but_restore_fails_witness :
    isResumable failedNoCheckpointSession = true ∧
      restore failedNoCheckpointSession =
        .error ("No checkpoints available for resumption") :=
  resumable_but_restore_fails failedNoCheckpointSession rfl rfl (by decide)

/-- C10: no session-manager operation invoked by the engine changes the
persisted session's `context`: creation stores the supplied context, and
`updateStatus` (with a patch carrying no `context` key), `checkpoint`,
`addLog`, `recordAgentExecution` and `restore` all preserve it. -/
theorem session_context_frame (wf : String) (c : Ctx) (s : Session)
    (status : SessionStatus) (patch : StatusPatch) (data : CheckpointData)
    (entry : LogEntry) (execution : ExecRecord)
    (hpatch : patch.context = none) :
    (createSession wf c).context = c ∧
    (updateStatus s status patch).context = s.context ∧
    (checkpoint s data).context = s.context ∧
    (addLog s entry).context = s.context ∧
    (recordAgentExecution s execution).context = s.context ∧
    ∀ s2 cp, restore s = .ok (s2, cp) → s2.context = s.context := by
  refine ⟨rfl, ?_, rfl, rfl, rfl, ?_⟩
  · simp [updateStatus, hpatch, mergeField]
  · intro s2 cp h
    unfold restore at h
    split at h
    · exact absurd h (by simp)
    · split at h
      · exact absurd h (by simp)
      · simp only [Except.ok.injEq, Prod.mk.injEq] at h
        obtain ⟨h4, _⟩ := h
        rw [← h4]

/-- Witness for C10 at a concrete session and patch. -/
theorem session_context_frame_witness :
    (createSession ("W") Ctx.empty).context = Ctx.empty :=
  (session_context_frame ("W") Ctx.empty (createSession ("W") Ctx.empty)
    SessionStatus.paused { error := none, result := none, context := none }
    stageTwoData ("log") { agentType := "PM", status := "completed", tokensUsed := none, executionTime := none, error := none } rfl).1

/-- C4 (amended): for every session that is not `completed`, after
`checkpoint` with stage index 2 the session's recorded current stage is 3,
`restore` succeeds returning the just-appended checkpoint as the latest
one, and the resumed stage index computed from it is 3.  (The original
claim quantified over every session; a `completed` session is the one
exception, see the counterexample.) -/
theorem checkpoint_restore_roundtrip (s : Session) (data : CheckpointData)
    (hst : s.status ≠ SessionStatus.completed) (hidx : data.stageIndex = 2) :
    (checkpoint s data).currentStage = 3 ∧
    restore (checkpoint s data) =
      .ok ({ checkpoint s data with status := SessionStatus.running },
           (checkpoint s data).checkpoints.getLast?) ∧
    ((checkpoint s data).checkpoints.getLast?).map (fun cp => cp.stageIndex) = some 2 ∧
    resumedStageIndex ((checkpoint s data).checkpoints.getLast?)
      ({ checkpoint s data with status := SessionStatus.running }) = 3 := by
  have hlast : (checkpoint s data).checkpoints.getLast? =
      some { stageIndex := data.stageIndex, stageName := data.stageName,
             completedAgents := data.completedAgents, state := data.state } := by
    simp [checkpoint]
  refine ⟨?_, ?_, ?_, ?_⟩
  · simp [checkpoint, hidx]
  · have h1 : ¬ (checkpoint s data).status = SessionStatus.completed := by
      simpa [checkpoint] using hst
    have h2 : ¬ ((checkpoint s data).checkpoints.length = 0 ∧
        (checkpoint s data).status = SessionStatus.failed) := by
      simp [checkpoint]
    have h3 : (checkpoint s data).checkpoints.length > 0 := by
      simp [checkpoint]
    simp only [restore]
    rw [if_neg h1, if_neg h2, if_pos h3]
  · rw [hlast, hidx]; rfl
  · rw [hlast]
    simp [resumedStageIndex, hidx]

/-- Counterexample for C4 as literally stated: on a `completed` session the
checkpoint still advances the recorded stage to 3, but `restore` throws,
so no run is ever reconstructed. -/
theorem checkpoint_restore_completed_counterexample :
    (checkpoint completedSession stageTwoData).currentStage = 3 ∧
    restore (checkpoint completedSession stageTwoData) =
      .error ("Cannot resume completed session") :=
  ⟨rfl, rfl⟩

/-- Witness for C4's amended theorem at a concrete running session. -/
theorem checkpoint_restore_roundtrip_witness :
    (checkpoint (createSession ("W") Ctx.empty) stageTwoData).currentStage = 3 :=
  (checkpoint_restore_roundtrip (createSession ("W") Ctx.empty) stageTwoData
    (by decide) rfl).1

/-! ### Model-selector lemmas (C2) -/

/-- A string accepted by `isValidTier` is one of the three tier names. -/
theorem validTier_cases (t : String) (h : isValidTier t = true) :
    t = "opus" ∨ t = "sonnet" ∨ t = "haiku" := by
  rcases List.contains_iff_exists_mem_beq.mp h with ⟨x, hx, hbeq⟩
  have hxe : t = x := by simpa using hbeq
  subst hxe
  simpa using hx

/-- The clamp: with a valid maximum tier and a valid input tier,
`enforceMaxTier` yields a tier whose hierarchy level is defined and at
most the maximum's level. -/
theorem enforceMaxTier_clamped (opts : ModelSelectorOptions) (t : String)
    (hmax : isValidTier opts.maxTier = true) (ht : isValidTier t = true) :
    ∃ l m, MODEL_HIERARCHY (enforceMaxTier opts t) = some l ∧
           MODEL_HIERARCHY opts.maxTier = some m ∧ l ≤ m := by
  rcases validTier_cases _ hmax with hA | hA | hA <;>
    rcases validTier_cases _ ht with rfl | rfl | rfl <;>
      simp [enforceMaxTier, MODEL_HIERARCHY, hA]

/-- `downgrade` always lands in the tier enumeration. -/
theorem isValidTier_downgrade (t : String) : isValidTier (downgrade t) = true := by
  unfold downgrade
  split <;> decide

/-- `upgrade` always lands in the tier enumeration. -/
theorem isValidTier_upgrade (t : String) : isValidTier (upgrade t) = true := by
  unfold upgrade
  split <;> decide

/-- The declared-default chain always yields a valid tier: every config
entry carries a valid `defaultModel` and the final fallback is sonnet. -/
theorem isValidTier_defaultModelChain (agentType : String) :
    isValidTier (defaultModelChain agentType) = true := by
  unfold defaultModelChain getAgentConfig
  split <;> simp only [Option.map] <;>
    first
      | decide
      | (unfold DEFAULT_MODEL_MAPPINGS; split <;> decide)

/-- The default path of `selectModel` is clamped whenever the configured
maximum tier is valid. -/
theorem selectModelDefaultPath_clamped (opts : ModelSelectorOptions)
    (agentType : String) (context : Ctx)
    (hmax : isValidTier opts.maxTier = true) :
    ∃ l m, MODEL_HIERARCHY (selectModelDefaultPath opts agentType context) = some l ∧
           MODEL_HIERARCHY opts.maxTier = some m ∧ l ≤ m := by
  unfold selectModelDefaultPath
  refine enforceMaxTier_clamped opts _ hmax ?_
  split
  · exact isValidTier_downgrade _
  · split
    · exact isValidTier_upgrade _
    · exact isValidTier_defaultModelChain _

/-- C2 (amended): whenever the configured maximum tier is a valid tier AND
every configured per-agent override is itself a valid tier, `selectModel`
returns a valid tier whose hierarchy level is at most the maximum's level;
in particular, with maximum tier sonnet and agent default opus (agent PM)
it returns sonnet.  (The override-validity hypothesis is forced by the
counterexample: the source never validates overrides, and an override
outside the enumeration escapes the clamp.) -/
theorem selectModel_clamped (opts : ModelSelectorOptions) (agentType : String)
    (context : Ctx)
    (hmax : isValidTier opts.maxTier = true)
    (hov : ∀ ov, opts.overrides agentType = some ov → isValidTier ov = true) :
    (∃ l m, MODEL_HIERARCHY (selectModel opts agentType context) = some l ∧
            MODEL_HIERARCHY opts.maxTier = some m ∧ l ≤ m) ∧
    selectModel sonnetCapOptions ("PM") Ctx.empty = "sonnet" := by
  constructor
  · unfold selectModel
    cases hcase : opts.overrides agentType with
    | none => exact selectModelDefaultPath_clamped opts agentType context hmax
    | some ov =>
        have hv := hov ov hcase
        by_cases he : ov = ""
        · subst he
          exact absurd hv (by decide)
        · dsimp only
          rw [if_neg he]
          exact enforceMaxTier_clamped opts ov hmax hv
  · rfl

/-- Counterexample for C2 as literally stated: with the valid maximum tier
sonnet but an override string outside the tier enumeration, `selectModel`
returns that invalid string unchanged, so it neither is a valid tier nor
sits below the maximum in the hierarchy. -/
theorem selectModel_invalid_override_escapes :
    selectModel invalidOverrideOptions ("PM") Ctx.empty = "mega" ∧
    isValidTier ("mega") = false ∧
    isValidTier invalidOverrideOptions.maxTier = true ∧
    MODEL_HIERARCHY ("mega") = none := by
  refine ⟨rfl, rfl, rfl, rfl⟩

/-- Witness for C2's amended theorem: the sonnet-capped configuration with
no overrides applied to PM (default opus). -/
theorem selectModel_clamped_witness :
    selectModel sonnetCapOptions ("PM") Ctx.empty = "sonnet" :=
  (selectModel_clamped sonnetCapOptions ("PM") Ctx.empty (by decide)
    (fun _ h => Option.noConfusion h)).2

/-! ### Log-ring lemmas (C8) -/

/-- Taking the last `n` elements of a list no longer than `n` keeps it. -/
theorem rtake_eq_self {α : Type} (l : List α) (n : Nat) (h : l.length ≤ n) :
    l.rtake n = l := by
  simp [List.rtake, Nat.sub_eq_zero_of_le h]

/-- Trimming to the last `n` elements commutes with later appends: the
last `n` of `trim l ++ m` are the last `n` of `l ++ m`. -/
theorem rtake_append_rtake {α : Type} (l m : List α) (n : Nat) :
    ((l.rtake n) ++ m).rtake n = (l ++ m).rtake n := by
  rw [List.rtake_eq_reverse_take_reverse, List.rtake_eq_reverse_take_reverse,
    List.rtake_eq_reverse_take_reverse]
  rw [List.reverse_append, List.reverse_append, List.reverse_reverse]
  rw [List.take_append_eq_append_take, List.take_append_eq_append_take]
  rw [List.take_take, List.length_reverse]
  have hmin : (n - m.length) ⊓ n = n - m.length := inf_eq_left.mpr (Nat.sub_le n m.length)
  rw [hmin]

/-- One `addLog` step: starting within the cap, the new log list is the
last 1000 of the appended list and stays within the cap. -/
theorem addLog_logs_eq (s : Session) (e : LogEntry) (h : s.logs.length ≤ 1000) :
    (addLog s e).logs = (s.logs ++ [e]).rtake 1000 ∧
    (addLog s e).logs.length ≤ 1000 := by
  simp only [addLog]
  by_cases hlen : (s.logs ++ [e]).length > 1000
  · rw [if_pos hlen]
    refine ⟨rfl, ?_⟩
    simp [List.rtake]
    omega
  · rw [if_neg hlen]
    simp only [List.length_append, List.length_singleton, gt_iff_lt, not_lt] at hlen
    exact ⟨(rtake_eq_self _ _ (by simpa using hlen)).symm, by simpa using hlen⟩

/-- Folding `addLog` over a sequence of entries keeps exactly the last
1000 of the full appended sequence. -/
theorem foldl_addLog_logs (entries : List LogEntry) (s : Session)
    (h : s.logs.length ≤ 1000) :
    (entries.foldl addLog s).logs = (s.logs ++ entries).rtake 1000 ∧
    (entries.foldl addLog s).logs.length ≤ 1000 := by
  induction entries generalizing s with
  | nil =>
      refine ⟨?_, by simpa using h⟩
      simp only [List.foldl_nil, List.append_nil]
      exact (rtake_eq_self _ _ h).symm
  | cons e rest ih =>
      obtain ⟨h1, h2⟩ := addLog_logs_eq s e h
      obtain ⟨ih1, ih2⟩ := ih (addLog s e) h2
      refine ⟨?_, by simpa using ih2⟩
      rw [List.foldl_cons, ih1, h1, rtake_append_rtake]
      rw [List.append_assoc]
      rfl

/-- C8: for every session within the 1000-entry cap (as every session is
from creation on) and every sequence of `addLog` calls, the resulting log
list is exactly the last 1000 entries of the appended sequence, in
insertion order, and never exceeds 1000 entries. -/
theorem addLog_ring (s : Session) (entries : List LogEntry)
    (h : s.logs.length ≤ 1000) :
    (entries.foldl addLog s).logs = (s.logs ++ entries).rtake 1000 ∧
    (entries.foldl addLog s).logs.length ≤ 1000 :=
  foldl_addLog_logs entries s h

/-- Witness for C8 on a freshly created session and two log entries. -/
theorem addLog_ring_witness :
    ((["a", "b"] : List LogEntry).foldl addLog (createSession ("W") Ctx.empty)).logs =
      (((createSession ("W") Ctx.empty).logs ++ ["a", "b"]).rtake 1000) ∧
    ((["a", "b"] : List LogEntry).foldl addLog (createSession ("W") Ctx.empty)).logs.length ≤ 1000 :=
  addLog_ring (createSession ("W") Ctx.empty) ["a", "b"] (by decide)

/-! ### Retry lemmas (C3) -/

/-- Reading the retry counter right after writing it. -/
theorem retriesOf_set (c : Ctx) (agentType : String) (k : Nat) :
    retriesOf (c.set (agentType ++ "_retries") (.num k)) agentType = k := by
  simp [retriesOf, Ctx.set]

/-- With an always-failing runner and counter value `r ≤ maxRetries`, the
spawn loop makes exactly `maxRetries + 1 - r` attempts and returns the
error, for any sufficient fuel. -/
theorem spawnLoop_fail_count (agentType : String) (maxRetries : Nat)
    (exec : Ctx → Except String AgentOutput)
    (hfail : ∀ c, ∃ e, exec c = .error e) :
    ∀ fuel r st, retriesOf st.context agentType = r → r ≤ maxRetries →
      maxRetries - r < fuel →
      (spawnLoop agentType maxRetries exec fuel st).2.2 = maxRetries + 1 - r ∧
      ∃ e, (spawnLoop agentType maxRetries exec fuel st).1 = .error e := by
  intro fuel
  induction fuel with
  | zero => intro r st _ _ h3; omega
  | succ f ih =>
    intro r st hr hle hf
    obtain ⟨e, he⟩ := hfail st.context
    by_cases hlt : r < maxRetries
    · have hr3 : retriesOf ((st.context.set (agentType ++ "_retries") (.num (r + 1)))) agentType
          = r + 1 := retriesOf_set _ _ _
      simp only [spawnLoop, he, hr, hlt, if_true, if_pos hlt]
      rcases hsp : spawnLoop agentType maxRetries exec f
          { context := st.context.set (agentType ++ "_retries") (.num (r + 1)),
            completedAgents := st.completedAgents,
            session := addLog (recordAgentExecution (addLog st.session ("agent_spawned"))
              { agentType := agentType, status := "failed", tokensUsed := none,
                executionTime := none, error := some e }) ("agent_retry") }
        with ⟨r4, st4, n4⟩
      have := ih (r + 1)
        { context := st.context.set (agentType ++ "_retries") (.num (r + 1)),
          completedAgents := st.completedAgents,
          session := addLog (recordAgentExecution (addLog st.session ("agent_spawned"))
            { agentType := agentType, status := "failed", tokensUsed := none,
              executionTime := none, error := some e }) ("agent_retry") }
        hr3 (by omega) (by omega)
      rw [hsp] at this
      obtain ⟨c1, c2⟩ := this
      refine ⟨?_, ?_⟩
      · simp only [hsp]
        simp at c1 ⊢
        omega
      · simp only [hsp]
        simpa using c2
    · have hreq : r = maxRetries := by omega
      simp only [spawnLoop, he, hr, hlt, if_false]
      exact ⟨by omega, ⟨e, rfl⟩⟩

/-- C3: an agent with configured max-retries 2, an initially absent retry
counter, and an always-failing runner is attempted exactly three times
(one initial attempt plus two retries), after which
`spawnAndExecuteAgent` propagates the failure to its caller. -/
theorem retry_bound_three_attempts (agentType : String)
    (exec : Ctx → Except String AgentOutput) (st : SpawnState)
    (hfail : ∀ c, ∃ e, exec c = .error e)
    (h0 : retriesOf st.context agentType = 0) :
    (spawnAndExecuteAgent agentType 2 exec st).2.2 = 3 ∧
    ∃ e, (spawnAndExecuteAgent agentType 2 exec st).1 = .error e := by
  have h := spawnLoop_fail_count agentType 2 exec hfail 3 0 st h0 (by omega) (by omega)
  simpa [spawnAndExecuteAgent] using h

/-- Witness for C3 with a concrete always-failing runner on a fresh run. -/
theorem retry_bound_three_attempts_witness :
    (spawnAndExecuteAgent ("PM") 2 (fun _ => .error ("x"))
      { context := Ctx.empty, completedAgents := [],
        session := createSession ("W") Ctx.empty }).2.2 = 3 :=
  (retry_bound_three_attempts ("PM") (fun _ => .error ("x"))
    { context := Ctx.empty, completedAgents := [],
      session := createSession ("W") Ctx.empty }
    (fun _ => ⟨"x", rfl⟩) rfl).1

/-! ### Failure-path lemmas (C7) -/

/-- `markFailed` only touches status/error fields. -/
theorem markFailed_logs (s : Session) (e : String) : (markFailed s e).logs = s.logs := rfl

/-- `markFailed` leaves the metadata untouched. -/
theorem markFailed_metadata (s : Session) (e : String) :
    (markFailed s e).metadata = s.metadata := rfl

/-- `markFailed` sets the status to `failed`. -/
theorem markFailed_status (s : Session) (e : String) :
    (markFailed s e).status = SessionStatus.failed := rfl

/-- `recordAgentExecution` appends to the metadata, not to the logs. -/
theorem recordAgentExecution_logs (s : Session) (r : ExecRecord) :
    (recordAgentExecution s r).logs = s.logs := rfl

/-- `addLog` does not touch the metadata. -/
theorem addLog_metadata (s : Session) (e : LogEntry) :
    (addLog s e).metadata = s.metadata := rfl

/-- Membership after one `addLog`: the entry was already there or is the
appended one (trimming only removes entries). -/
theorem mem_addLog_logs {s : Session} {e l : LogEntry}
    (h : l ∈ (addLog s e).logs) : l ∈ s.logs ∨ l = e := by
  simp only [addLog] at h
  split at h
  · unfold List.rtake at h
    have h2 : l ∈ s.logs ++ [e] := List.mem_of_mem_drop h
    simpa using h2
  · simpa using h

/-- Every log entry present after a spawn loop was either already present
or is one of the two entry types the loop appends. -/
theorem spawnLoop_logs_types (agentType : String) (maxRetries : Nat)
    (exec : Ctx → Except String AgentOutput) :
    ∀ fuel st l,
      l ∈ (spawnLoop agentType maxRetries exec fuel st).2.1.session.logs →
      l ∈ st.session.logs ∨ l = "agent_spawned" ∨ l = "agent_retry" := by
  intro fuel
  induction fuel with
  | zero =>
      intro st l h
      simp only [spawnLoop] at h
      exact Or.inl h
  | succ f ih =>
      intro st l h
      cases hex : exec st.context with
      | ok o =>
          simp only [spawnLoop, hex] at h
          rw [recordAgentExecution_logs] at h
          rcases mem_addLog_logs h with h2 | h2
          · exact Or.inl h2
          · exact Or.inr (Or.inl h2)
      | error e =>
          simp only [spawnLoop, hex] at h
          by_cases hlt : retriesOf st.context agentType < maxRetries
          · rw [if_pos hlt] at h
            rcases hsp : spawnLoop agentType maxRetries exec f
                { context := st.context.set (agentType ++ "_retries")
                    (.num (retriesOf st.context agentType + 1)),
                  completedAgents := st.completedAgents,
                  session := addLog (recordAgentExecution
                    (addLog st.session ("agent_spawned"))
                    { agentType := agentType, status := "failed", tokensUsed := none,
                      executionTime := none, error := some e }) ("agent_retry") }
              with ⟨r4, st4, n4⟩
            rw [hsp] at h
            have h5 := ih _ l (by rw [hsp]; exact h)
            rcases h5 with h5 | h5 | h5
            · rcases mem_addLog_logs h5 with h6 | h6
              · rw [recordAgentExecution_logs] at h6
                rcases mem_addLog_logs h6 with h7 | h7
                · exact Or.inl h7
                · exact Or.inr (Or.inl h7)
              · exact Or.inr (Or.inr h6)
            · exact Or.inr (Or.inl h5)
            · exact Or.inr (Or.inr h5)
          · rw [if_neg hlt] at h
            rw [recordAgentExecution_logs] at h
            rcases mem_addLog_logs h with h2 | h2
            · exact Or.inl h2
            · exact Or.inr (Or.inl h2)

/-- Execution records are never removed by the spawn loop. -/
theorem spawnLoop_metadata_mono (agentType : String) (maxRetries : Nat)
    (exec : Ctx → Except String AgentOutput) :
    ∀ fuel st r0, r0 ∈ st.session.metadata.agentExecutions →
      r0 ∈ (spawnLoop agentType maxRetries exec fuel st).2.1.session.metadata.agentExecutions := by
  intro fuel
  induction fuel with
  | zero =>
      intro st r0 h
      simp only [spawnLoop]
      exact h
  | succ f ih =>
      intro st r0 h
      cases hex : exec st.context with
      | ok o =>
          simp only [spawnLoop, hex]
          simp [recordAgentExecution, addLog]
          exact Or.inl h
      | error e =>
          simp only [spawnLoop, hex]
          by_cases hlt : retriesOf st.context agentType < maxRetries
          · rw [if_pos hlt]
            rcases hsp : spawnLoop agentType maxRetries exec f
                { context := st.context.set (agentType ++ "_retries")
                    (.num (retriesOf st.context agentType + 1)),
                  completedAgents := st.completedAgents,
                  session := addLog (recordAgentExecution
                    (addLog st.session ("agent_spawned"))
                    { agentType := agentType, status := "failed", tokensUsed := none,
                      executionTime := none, error := some e }) ("agent_retry") }
              with ⟨r4, st4, n4⟩
            have := ih
              { context := st.context.set (agentType ++ "_retries")
                  (.num (retriesOf st.context agentType + 1)),
                completedAgents := st.completedAgents,
                session := addLog (recordAgentExecution
                  (addLog st.session ("agent_spawned"))
                  { agentType := agentType, status := "failed", tokensUsed := none,
                    executionTime := none, error := some e }) ("agent_retry") }
              r0 (by simp [addLog, recordAgentExecution]; exact Or.inl h)
            rw [hsp] at this
            simpa using this
          · rw [if_neg hlt]
            simp [recordAgentExecution, addLog]
            exact Or.inl h

/-- With an always-failing runner, the spawn loop records at least one
failed execution for the agent in the session metadata. -/
theorem spawnLoop_records_failure (agentType : String) (maxRetries : Nat)
    (exec : Ctx → Except String AgentOutput)
    (hfail : ∀ c, ∃ e, exec c = .error e) :
    ∀ fuel st, 0 < fuel →
      ∃ r0 ∈ (spawnLoop agentType maxRetries exec fuel st).2.1.session.metadata.agentExecutions,
        r0.status = "failed" ∧ r0.agentType = agentType := by
  intro fuel
  induction fuel with
  | zero => intro st h0; omega
  | succ f _ =>
      intro st _
      obtain ⟨e, hex⟩ := hfail st.context
      simp only [spawnLoop, hex]
      by_cases hlt : retriesOf st.context agentType < maxRetries
      · rw [if_pos hlt]
        rcases hsp : spawnLoop agentType maxRetries exec f
            { context := st.context.set (agentType ++ "_retries")
                (.num (retriesOf st.context agentType + 1)),
              completedAgents := st.completedAgents,
              session := addLog (recordAgentExecution
                (addLog st.session ("agent_spawned"))
                { agentType := agentType, status := "failed", tokensUsed := none,
                  executionTime := none, error := some e }) ("agent_retry") }
          with ⟨r4, st4, n4⟩
        have hmem := spawnLoop_metadata_mono agentType maxRetries exec f
          { context := st.context.set (agentType ++ "_retries")
              (.num (retriesOf st.context agentType + 1)),
            completedAgents := st.completedAgents,
            session := addLog (recordAgentExecution
              (addLog st.session ("agent_spawned"))
              { agentType := agentType, status := "failed", tokensUsed := none,
                executionTime := none, error := some e }) ("agent_retry") }
          { agentType := agentType, status := "failed", tokensUsed := none,
            executionTime := none, error := some e }
          (by simp [addLog, recordAgentExecution])
        rw [hsp] at hmem
        exact ⟨_, by simpa using hmem, rfl, rfl⟩
      · rw [if_neg hlt]
        refine ⟨{ agentType := agentType, status := "failed", tokensUsed := none, executionTime := none, error := some e }, ?_, rfl, rfl⟩
        simp [recordAgentExecution, addLog]

/-- With an always-failing runner, `spawnAndExecuteAgent` always
propagates an error. -/
theorem spawnAndExecuteAgent_fail (agentType : String) (maxRetries : Nat)
    (exec : Ctx → Except String AgentOutput) (st : SpawnState)
    (hfail : ∀ c, ∃ e, exec c = .error e) :
    ∃ e, (spawnAndExecuteAgent agentType maxRetries exec st).1 = .error e := by
  by_cases hc : retriesOf st.context agentType ≤ maxRetries
  · exact (spawnLoop_fail_count agentType maxRetries exec hfail (maxRetries + 1)
      (retriesOf st.context agentType) st rfl hc (by omega)).2
  · obtain ⟨e, he⟩ := hfail st.context
    have hnlt : ¬ (retriesOf st.context agentType < maxRetries) := by omega
    simp only [spawnAndExecuteAgent, spawnLoop, he, hnlt, if_false]
    exact ⟨e, rfl⟩

/-- A failing single agent aborts `executeAgentsSeq` with its error. -/
theorem executeAgentsSeq_cons_error (maxRetriesFor : String → Nat)
    (execFor : String → Ctx → Except String AgentOutput)
    (agentType : String) (rest : List String) (st stf : SpawnState)
    (e : String) (n : Nat)
    (h : spawnAndExecuteAgent agentType (maxRetriesFor agentType) (execFor agentType) st
      = (.error e, stf, n)) :
    executeAgentsSeq maxRetriesFor execFor (agentType :: rest) st = (.error e, stf) := by
  simp only [executeAgentsSeq, h]

/-- A single-agent stage run from a state with no completed agents reduces
to the spawn of that agent. -/
theorem executeStage_single_fail (maxRetriesFor : String → Nat)
    (execFor : String → Ctx → Except String AgentOutput)
    (stageName agentType : String) (mode : String) (st stf : SpawnState)
    (e : String) (n : Nat)
    (hcomp : st.completedAgents = [])
    (h : spawnAndExecuteAgent agentType (maxRetriesFor agentType) (execFor agentType) st
      = (.error e, stf, n)) :
    executeStage maxRetriesFor execFor
      { name := stageName, agents := [agentType], executionMode := mode } st
      = (.error e, stf) := by
  unfold executeStage
  have hfilter : ([agentType].filter (fun a => !st.completedAgents.contains a)) = [agentType] := by
    rw [hcomp]
    rfl
  rw [hfilter]
  exact executeAgentsSeq_cons_error maxRetriesFor execFor agentType [] st stf e n h

/-- A failing single stage aborts the stage loop with its error. -/
theorem executeStages_single_fail (maxRetriesFor : String → Nat)
    (execFor : String → Ctx → Except String AgentOutput)
    (i : Nat) (stage : StageDef) (st stf : SpawnState) (e : String)
    (h : executeStage maxRetriesFor execFor stage
        { st with session := addLog st.session ("stage_started") } = (.error e, stf)) :
    executeStages maxRetriesFor execFor [(i, stage)] st = (.error e, stf) := by
  simp only [executeStages, h]

/-- A failing single-stage workflow yields the error and the
`markFailed`-updated session. -/
theorem startWorkflow_single_stage_fail (maxRetriesFor : String → Nat)
    (execFor : String → Ctx → Except String AgentOutput)
    (workflowId : String) (stage : StageDef) (context : Ctx)
    (stf : SpawnState) (e : String)
    (h : executeStages maxRetriesFor execFor [(0, stage)]
        { context := context, completedAgents := [],
          session := addLog (createSession workflowId context) ("workflow_started") }
      = (.error e, stf)) :
    startWorkflow maxRetriesFor execFor workflowId [stage] context
      = (.error e, markFailed stf.session e) := by
  simp only [startWorkflow]
  rw [show ([stage].enum) = [(0, stage)] from rfl, h]

/-- C7 (amended): when a workflow's agent exhausts its retries and the
error propagates out of `startWorkflow`, the session's status has been set
to `failed` and a failed execution record for the agent has been appended
to the session's execution metadata before the error reaches the caller —
but no log entry recording the failure is appended to the session's log
list: every entry of the final log list is one of the pre-failure entry
types (`workflow_started`, `stage_started`, `agent_spawned`,
`agent_retry`).  (The original claim's "appends a log entry" part is
refuted by the counterexample below.) -/
theorem failure_updates_status_and_records
    (maxRetriesFor : String → Nat)
    (execFor : String → Ctx → Except String AgentOutput)
    (workflowId stageName agentType : String) (context : Ctx)
    (hfail : ∀ c, ∃ e, execFor agentType c = .error e) :
    (∃ e, (startWorkflow maxRetriesFor execFor workflowId
        [{ name := stageName, agents := [agentType], executionMode := "sequential" }]
        context).1 = .error e) ∧
    (startWorkflow maxRetriesFor execFor workflowId
        [{ name := stageName, agents := [agentType], executionMode := "sequential" }]
        context).2.status = SessionStatus.failed ∧
    (∃ r0 ∈ (startWorkflow maxRetriesFor execFor workflowId
        [{ name := stageName, agents := [agentType], executionMode := "sequential" }]
        context).2.metadata.agentExecutions,
      r0.status = "failed" ∧ r0.agentType = agentType) ∧
    (∀ l ∈ (startWorkflow maxRetriesFor execFor workflowId
        [{ name := stageName, agents := [agentType], executionMode := "sequential" }]
        context).2.logs,
      l = "workflow_started" ∨ l = "stage_started" ∨ l = "agent_spawned" ∨
        l = "agent_retry") := by
  rcases hsp : spawnAndExecuteAgent agentType (maxRetriesFor agentType) (execFor agentType)
      { context := context, completedAgents := [],
        session := addLog (addLog (createSession workflowId context) ("workflow_started"))
          ("stage_started") }
    with ⟨res, stf, n⟩
  obtain ⟨e, he⟩ := spawnAndExecuteAgent_fail agentType (maxRetriesFor agentType)
    (execFor agentType)
    { context := context, completedAgents := [],
      session := addLog (addLog (createSession workflowId context) ("workflow_started"))
        ("stage_started") }
    hfail
  rw [hsp] at he
  simp only at he
  subst he
  have h1 : executeStage maxRetriesFor execFor
      { name := stageName, agents := [agentType], executionMode := "sequential" }
      { context := context, completedAgents := [],
        session := addLog (addLog (createSession workflowId context) ("workflow_started"))
          ("stage_started") }
      = (.error e, stf) :=
    executeStage_single_fail maxRetriesFor execFor stageName agentType ("sequential")
      _ stf e n rfl hsp
  have h2 : executeStages maxRetriesFor execFor
      [(0, { name := stageName, agents := [agentType], executionMode := "sequential" })]
      { context := context, completedAgents := [],
        session := addLog (createSession workflowId context) ("workflow_started") }
      = (.error e, stf) :=
    executeStages_single_fail maxRetriesFor execFor 0 _ _ stf e h1
  have hmain := startWorkflow_single_stage_fail maxRetriesFor execFor workflowId
    { name := stageName, agents := [agentType], executionMode := "sequential" }
    context stf e h2
  rw [hmain]
  refine ⟨⟨e, rfl⟩, markFailed_status _ _, ?_, ?_⟩
  · have hrec := spawnLoop_records_failure agentType (maxRetriesFor agentType)
      (execFor agentType) hfail (maxRetriesFor agentType + 1)
      { context := context, completedAgents := [],
        session := addLog (addLog (createSession workflowId context) ("workflow_started"))
          ("stage_started") }
      (by omega)
    rw [show (spawnLoop agentType (maxRetriesFor agentType) (execFor agentType)
        (maxRetriesFor agentType + 1)
        { context := context, completedAgents := [],
          session := addLog (addLog (createSession workflowId context) ("workflow_started"))
            ("stage_started") }) = (.error e, stf, n) from hsp] at hrec
    rw [markFailed_metadata]
    simpa using hrec
  · intro l hl
    rw [markFailed_logs] at hl
    have hmem := spawnLoop_logs_types agentType (maxRetriesFor agentType) (execFor agentType)
      (maxRetriesFor agentType + 1)
      { context := context, completedAgents := [],
        session := addLog (addLog (createSession workflowId context) ("workflow_started"))
          ("stage_started") }
      l
      (by
        rw [show (spawnLoop agentType (maxRetriesFor agentType) (execFor agentType)
            (maxRetriesFor agentType + 1)
            { context := context, completedAgents := [],
              session := addLog (addLog (createSession workflowId context) ("workflow_started"))
                ("stage_started") }) = (.error e, stf, n) from hsp]
        exact hl)
    rcases hmem with hmem | hmem | hmem
    · rcases mem_addLog_logs hmem with h3 | h3
      · rcases mem_addLog_logs h3 with h4 | h4
        · exact absurd h4 (by simp [createSession])
        · exact Or.inl h4
      · exact Or.inr (Or.inl h3)
    · exact Or.inr (Or.inr (Or.inl hmem))
    · exact Or.inr (Or.inr (Or.inr hmem))

/-- Counterexample for C7 as literally stated: a single always-failing
agent with no retries leaves a failed session whose log list consists
exactly of the three entries appended before the runner error was raised —
the failure handling itself (`recordAgentExecution` into the metadata,
`markFailed`) appends no log entry. -/
theorem failure_path_appends_no_log :
    failLogScenarioSession.status = SessionStatus.failed ∧
    failLogScenarioSession.logs = ["workflow_started", "stage_started", "agent_spawned"] ∧
    failLogScenarioSession.logs =
      (addLog (addLog (addLog (createSession ("BUG_FIX") Ctx.empty) ("workflow_started"))
        ("stage_started")) ("agent_spawned")).logs := by
  refine ⟨rfl, by decide, by decide⟩

/-- Witness for C7's amended theorem at a concrete always-failing agent. -/
theorem failure_updates_status_and_records_witness :
    (startWorkflow (fun _ => 1) (fun _ _ => .error ("down")) ("W")
        [{ name := "S", agents := ["PM"], executionMode := "sequential" }]
        Ctx.empty).2.status = SessionStatus.failed :=
  (failure_updates_status_and_records (fun _ => 1) (fun _ _ => .error ("down"))
    ("W") ("S") ("PM") Ctx.empty (fun _ => ⟨"down", rfl⟩)).2.1

/-- C1: the engine folds a completed agent's output into the run context
and checkpoints it inside the checkpoint's state blob, but `resumeWorkflow`
rebuilds the run from `session.context`, which the session manager never
merges outputs into.  Concretely: after the prior run in which PM
completed (recorded in the session's completed set, with `PM_output` in
the latest checkpoint's state context), the resumed run's context has no
`PM_output` entry, and `gatherDependencyOutputs` for ARCHITECT (which
declares PM as a dependency) comes back empty. -/
theorem resume_drops_accumulated_context :
    resumeScenarioSession.status = SessionStatus.failed ∧
    resumeScenarioSession.completedAgents = ["PM"] ∧
    resumeScenarioSession.checkpoints.map (fun cp => cp.state.context ("PM_output")) =
      [some (.out pmOutput)] ∧
    (resumeWorkflowRun resumeScenarioSession).toOption.map
      (fun run => run.context ("PM_output")) = some none ∧
    (resumeWorkflowRun resumeScenarioSession).toOption.map
      (fun run => gatherDependencyOutputs run.context ("ARCHITECT")) = some [] ∧
    (resumeWorkflowRun resumeScenarioSession).toOption.map
      (fun run => run.completedAgents) = some ["PM"] := by
  refine ⟨rfl, by decide, by decide, by decide, by decide, by decide⟩

/-! ### List helpers for Kahn's algorithm (C5) -/

/-- `contains` agrees with membership for strings. -/
theorem contains_true_iff (l : List String) (a : String) :
    l.contains a = true ↔ a ∈ l := by
  constructor
  · intro h
    rcases List.contains_iff_exists_mem_beq.mp h with ⟨x, hx, hbeq⟩
    have hax : a = x := by simpa using hbeq
    rwa [hax]
  · intro h
    exact List.contains_iff_exists_mem_beq.mpr ⟨a, h, by simp⟩

/-- Negative form of `contains_true_iff`. -/
theorem contains_eq_false_iff (l : List String) (a : String) :
    l.contains a = false ↔ a ∉ l := by
  rw [Bool.eq_false_iff, Ne, contains_true_iff]

/-- A filter that drops at least one element is strictly shorter. -/
theorem length_filter_lt {α : Type} (p : α → Bool) (l : List α) (x : α)
    (hx : x ∈ l) (hpx : p x = false) :
    (l.filter p).length < l.length := by
  induction l with
  | nil => cases hx
  | cons a as ih =>
    rcases List.mem_cons.mp hx with rfl | hx2
    · simp [List.filter_cons, hpx]
      exact Nat.lt_succ_of_le (List.length_filter_le p as)
    · by_cases hpa : p a = true
      · simp [List.filter_cons, hpa]
        exact ih hx2
      · have hpa2 : p a = false := by simpa using hpa
        simp [List.filter_cons, hpa2]
        exact Nat.lt_succ_of_le (List.length_filter_le p as)

/-- Effect of a sequence of single-key decrements on one key. -/
theorem foldl_decOne_apply (ds : List String) (m : String → Nat) (t : String) :
    (ds.foldl decOne m) t = m t - ds.count t := by
  induction ds generalizing m with
  | nil => simp
  | cons d ds ih =>
    rw [List.foldl_cons, ih]
    by_cases h : t = d
    · subst h
      simp [decOne, List.count_cons]
      omega
    · simp [decOne, h, List.count_cons]

/-- Effect of `decLevel` on one key: the in-degree drops by the total
number of adjacency occurrences of that key over the level. -/
theorem decLevel_apply (adjacency : String → List String) :
    ∀ (level : List String) (m : String → Nat) (t : String),
      decLevel adjacency m level t
        = m t - (level.map (fun s => (adjacency s).count t)).sum := by
  intro level
  induction level with
  | nil => intro m t; simp [decLevel]
  | cons x xs ih =>
    intro m t
    have hx := ih ((adjacency x).foldl decOne m) t
    simp only [decLevel, List.foldl_cons] at hx ⊢
    rw [hx, foldl_decOne_apply]
    simp only [List.map_cons, List.sum_cons]
    omega

/-- Effect of the inner adjacency-building fold on one key. -/
theorem foldl_pushDependent_apply (t : String) :
    ∀ (ds : List String) (adj : String → List String) (s : String),
      (ds.foldl (pushDependent t) adj) s = adj s ++ List.replicate (ds.count s) t := by
  intro ds
  induction ds with
  | nil => intro adj s; simp
  | cons d ds ih =>
    intro adj s
    rw [List.foldl_cons, ih]
    by_cases h : s = d
    · subst h
      have hc : (s :: ds).count s = ds.count s + 1 := by simp [List.count_cons]
      rw [hc]
      have hps : pushDependent t adj s s = adj s ++ [t] := by simp [pushDependent]
      rw [hps, List.append_assoc, List.singleton_append, ← List.replicate_succ]
    · have hc : (d :: ds).count s = ds.count s := by simp [List.count_cons, h]
      rw [hc]
      simp [pushDependent, h]

/-- Accumulator form of the adjacency-count characterisation. -/
theorem buildAdjacency_count_aux (getDeps : String → List String) (ats : List String) :
    ∀ (ts : List String) (adj : String → List String) (s t : String), ts.Nodup →
      ((ts.foldl (fun adjacency u =>
          (depsWithin getDeps ats u).foldl (pushDependent u) adjacency) adj) s).count t
        = (adj s).count t + (if t ∈ ts then (depsWithin getDeps ats t).count s else 0) := by
  intro ts
  induction ts with
  | nil => intro adj s t _; simp
  | cons u ts ih =>
    intro adj s t hnd
    rw [List.foldl_cons, ih _ _ _ (List.Nodup.of_cons hnd)]
    rw [foldl_pushDependent_apply, List.count_append, List.count_replicate]
    by_cases h : u = t
    · subst h
      have hu : u ∉ ts := (List.nodup_cons.mp hnd).1
      simp [hu]
    · simp [h, List.mem_cons, Ne.symm h]

/-- Number of occurrences of `t` in the dependent list of `s`: exactly the
number of occurrences of `s` among `t`'s in-subset dependencies (when the
subset has no duplicates). -/
theorem buildAdjacency_count (getDeps : String → List String) (ats : List String)
    (hats : ats.Nodup) (s t : String) :
    ((buildAdjacency getDeps ats) s).count t
      = if t ∈ ats then (depsWithin getDeps ats t).count s else 0 := by
  unfold buildAdjacency
  rw [buildAdjacency_count_aux getDeps ats ats _ s t hats]
  simp

/-- Sums of pointwise sums split. -/
theorem sum_map_add {α : Type} (l : List α) (f g : α → Nat) :
    (l.map (fun x => f x + g x)).sum = (l.map f).sum + (l.map g).sum := by
  induction l with
  | nil => simp
  | cons x xs ih =>
    simp only [List.map_cons, List.sum_cons, ih]
    omega

/-- Sum of a single-point indicator over a duplicate-free list. -/
theorem sum_map_indicator (d : String) :
    ∀ (L : List String), L.Nodup →
      (L.map (fun s => if d == s then 1 else 0)).sum = if d ∈ L then 1 else 0 := by
  intro L
  induction L with
  | nil => intro _; simp
  | cons u L ih =>
    intro hnd
    have hu : u ∉ L := (List.nodup_cons.mp hnd).1
    simp only [List.map_cons, List.sum_cons, ih (List.Nodup.of_cons hnd)]
    by_cases h : u = d
    · subst h
      simp [hu]
    · simp [h, List.mem_cons, Ne.symm h]

/-- Total count over a duplicate-free index list equals the length of the
filter by membership. -/
theorem sum_map_count_eq_length_filter (L : List String) (hnd : L.Nodup) :
    ∀ (ds : List String),
      (L.map (fun s => ds.count s)).sum = (ds.filter (fun d => L.contains d)).length := by
  intro ds
  induction ds with
  | nil => simp
  | cons d ds ih =>
    simp only [List.count_cons]
    rw [sum_map_add L (fun s => ds.count s) (fun s => if d == s then 1 else 0)]
    rw [ih, sum_map_indicator d L hnd, List.filter_cons]
    by_cases h : d ∈ L
    · have hc : L.contains d = true := (contains_true_iff L d).mpr h
      simp [hc, h]
    · have hc : L.contains d = false := (contains_eq_false_iff L d).mpr h
      simp [hc, h]

/-- Three boolean predicates where the first is the exclusive disjunction
of the other two split the filter length. -/
theorem length_filter_split {α : Type} (p q r : α → Bool) :
    ∀ (ds : List α),
      (∀ x ∈ ds, (p x = true ↔ (q x = true ∨ r x = true)) ∧ ¬(q x = true ∧ r x = true)) →
      (ds.filter p).length = (ds.filter q).length + (ds.filter r).length := by
  intro ds
  induction ds with
  | nil => intro _; simp
  | cons a as ih =>
    intro h
    have ha := h a (List.mem_cons_self a as)
    have ihs := ih (fun x hx => h x (List.mem_cons_of_mem a hx))
    by_cases hqa : q a = true
    · by_cases hra : r a = true
      · exact absurd ⟨hqa, hra⟩ ha.2
      · have hpa : p a = true := ha.1.mpr (Or.inl hqa)
        have hra2 : r a = false := by simpa using hra
        simp [List.filter_cons, hpa, hqa, hra2]
        omega
    · by_cases hra : r a = true
      · have hpa : p a = true := ha.1.mpr (Or.inr hra)
        have hqa2 : q a = false := by simpa using hqa
        simp [List.filter_cons, hpa, hqa2, hra]
        omega
      · have hqa2 : q a = false := by simpa using hqa
        have hra2 : r a = false := by simpa using hra
        have hpa : p a = false := by
          by_contra hc
          have : p a = true := by simpa using hc
          rcases ha.1.mp this with h2 | h2
          · exact absurd h2 (by simp [hqa2])
          · exact absurd h2 (by simp [hra2])
        simp [List.filter_cons, hpa, hqa2, hra2]
        exact ihs

/-- One iteration of Kahn's loop preserves the loop invariants: the
remainder stays duplicate-free and inside the subset, the removed level
partitions the old remainder, the decremented in-degrees again count the
in-subset dependencies still remaining, and every member of the removed
level has no in-subset dependency left in the old remainder. -/
theorem topo_step_invariants (getDeps : String → List String) (ats : List String)
    (hats : ats.Nodup) (remaining : List String) (inDegree : String → Nat)
    (L remaining2 : List String)
    (hnd : remaining.Nodup) (hsub : ∀ t ∈ remaining, t ∈ ats)
    (hdeg : ∀ t ∈ remaining, inDegree t =
      ((depsWithin getDeps ats t).filter (fun d => remaining.contains d)).length)
    (hL : L = remaining.filter (fun t => inDegree t == 0))
    (hrem2 : remaining2 = remaining.filter (fun t => !L.contains t)) :
    remaining2.Nodup ∧ (∀ t ∈ remaining2, t ∈ ats) ∧
    (∀ t, t ∈ remaining ↔ t ∈ remaining2 ∨ t ∈ L) ∧
    (∀ t ∈ remaining2, t ∉ L) ∧
    (∀ t ∈ remaining2, decLevel (buildAdjacency getDeps ats) inDegree L t =
      ((depsWithin getDeps ats t).filter (fun d => remaining2.contains d)).length) ∧
    (∀ t ∈ L, ∀ d ∈ depsWithin getDeps ats t, d ∉ remaining) := by
  have hLnd : L.Nodup := hL ▸ List.Nodup.filter _ hnd
  have hLsub : ∀ t ∈ L, t ∈ remaining := by
    intro t ht
    rw [hL] at ht
    exact (List.mem_filter.mp ht).1
  have hr2sub : ∀ t ∈ remaining2, t ∈ remaining := by
    intro t ht
    rw [hrem2] at ht
    exact (List.mem_filter.mp ht).1
  have hr2notL : ∀ t ∈ remaining2, t ∉ L := by
    intro t ht
    rw [hrem2] at ht
    have h2 := (List.mem_filter.mp ht).2
    have h3 : L.contains t = false := by
      cases h4 : L.contains t
      · rfl
      · rw [h4] at h2; simp at h2
    exact (contains_eq_false_iff L t).mp h3
  have hsplit : ∀ t, t ∈ remaining ↔ t ∈ remaining2 ∨ t ∈ L := by
    intro t
    constructor
    · intro ht
      by_cases hmem : t ∈ L
      · exact Or.inr hmem
      · refine Or.inl ?_
        rw [hrem2]
        refine List.mem_filter.mpr ⟨ht, ?_⟩
        rw [(contains_eq_false_iff L t).mpr hmem]
        rfl
    · intro h
      rcases h with h | h
      · exact hr2sub t h
      · exact hLsub t h
  have hLnodeps : ∀ t ∈ L, ∀ d ∈ depsWithin getDeps ats t, d ∉ remaining := by
    intro t ht d hd hdr
    have htr := hLsub t ht
    have hzero : inDegree t = 0 := by
      rw [hL] at ht
      have h2 := (List.mem_filter.mp ht).2
      simpa using h2
    have hnil : (depsWithin getDeps ats t).filter (fun d => remaining.contains d) = [] := by
      have := (hdeg t htr).symm.trans hzero
      exact List.length_eq_zero.mp this
    have : d ∈ (depsWithin getDeps ats t).filter (fun d => remaining.contains d) :=
      List.mem_filter.mpr ⟨hd, (contains_true_iff remaining d).mpr hdr⟩
    rw [hnil] at this
    cases this
  refine ⟨hrem2 ▸ List.Nodup.filter _ hnd,
          fun t ht => hsub t (hr2sub t ht), hsplit, hr2notL, ?_, hLnodeps⟩
  intro t ht
  have htr := hr2sub t ht
  have htats := hsub t htr
  rw [decLevel_apply]
  have hmapeq : L.map (fun s => ((buildAdjacency getDeps ats) s).count t)
      = L.map (fun s => (depsWithin getDeps ats t).count s) := by
    refine List.map_congr_left ?_
    intro s _
    rw [buildAdjacency_count getDeps ats hats s t, if_pos htats]
  rw [hmapeq, sum_map_count_eq_length_filter L hLnd (depsWithin getDeps ats t)]
  rw [hdeg t htr]
  have hsplitlen : ((depsWithin getDeps ats t).filter (fun d => remaining.contains d)).length
      = ((depsWithin getDeps ats t).filter (fun d => remaining2.contains d)).length
        + ((depsWithin getDeps ats t).filter (fun d => L.contains d)).length := by
    refine length_filter_split _ _ _ _ ?_
    intro x _
    constructor
    · rw [contains_true_iff, contains_true_iff, contains_true_iff]
      exact hsplit x
    · rintro ⟨hq, hr⟩
      rw [contains_true_iff] at hq hr
      exact hr2notL x hq hr
  rw [hsplitlen]
  omega

/-- Main loop correctness on the success path: under the loop invariants,
an `ok` result covers exactly the remaining tags and places every
in-subset dependency either among the already-placed tags or in a strictly
earlier level. -/
theorem topoLoop_ok_spec (getDeps : String → List String) (ats : List String)
    (hats : ats.Nodup) :
    ∀ (fuel : Nat) (remaining : List String) (inDegree : String → Nat)
      (placed : List String) (levels : List (List String)),
      remaining.Nodup →
      (∀ t ∈ remaining, t ∈ ats) →
      (∀ t ∈ remaining, inDegree t =
        ((depsWithin getDeps ats t).filter (fun d => remaining.contains d)).length) →
      (∀ t ∈ remaining, ∀ d ∈ depsWithin getDeps ats t, d ∈ remaining ∨ d ∈ placed) →
      topoLoop (buildAdjacency getDeps ats) fuel remaining inDegree = .ok levels →
      ((∀ t, t ∈ levels.flatten ↔ t ∈ remaining) ∧
       (∀ i t, t ∈ levels.getD i [] → ∀ d ∈ depsWithin getDeps ats t,
         d ∈ placed ∨ ∃ j, j < i ∧ d ∈ levels.getD j [])) := by
  intro fuel
  induction fuel with
  | zero =>
      intro remaining inDegree placed levels hnd hsub hdeg hclosed heq
      simp only [topoLoop] at heq
      by_cases hrem : remaining.isEmpty = true
      · rw [if_pos hrem] at heq
        simp only [Except.ok.injEq] at heq
        subst heq
        have hremnil : remaining = [] := List.isEmpty_iff.mp hrem
        subst hremnil
        refine ⟨fun t => by simp, fun i t ht => ?_⟩
        have hgd : (([] : List (List String)).getD i []) = [] := by
          cases i <;> rfl
        rw [hgd] at ht
        cases ht
      · rw [if_neg hrem] at heq
        exact absurd heq (by simp)
  | succ f ih =>
      intro remaining inDegree placed levels hnd hsub hdeg hclosed heq
      simp only [topoLoop] at heq
      by_cases hrem : remaining.isEmpty = true
      · rw [if_pos hrem] at heq
        simp only [Except.ok.injEq] at heq
        subst heq
        have hremnil : remaining = [] := List.isEmpty_iff.mp hrem
        subst hremnil
        refine ⟨fun t => by simp, fun i t ht => ?_⟩
        have hgd : (([] : List (List String)).getD i []) = [] := by
          cases i <;> rfl
        rw [hgd] at ht
        cases ht
      · rw [if_neg hrem] at heq
        by_cases hcl : (remaining.filter (fun t => inDegree t == 0)).isEmpty = true
        · rw [if_pos hcl] at heq
          exact absurd heq (by simp)
        · rw [if_neg hcl] at heq
          cases hrec : topoLoop (buildAdjacency getDeps ats) f
              (remaining.filter (fun t =>
                !(remaining.filter (fun t2 => inDegree t2 == 0)).contains t))
              (decLevel (buildAdjacency getDeps ats) inDegree
                (remaining.filter (fun t2 => inDegree t2 == 0))) with
          | error e =>
              rw [hrec] at heq
              exact absurd heq (by simp)
          | ok levels2 =>
              rw [hrec] at heq
              simp only [Except.ok.injEq] at heq
              subst heq
              obtain ⟨hnd2, hsub2, hsplit, hdisj, hdeg2, hLnodeps⟩ :=
                topo_step_invariants getDeps ats hats remaining inDegree
                  (remaining.filter (fun t2 => inDegree t2 == 0))
                  (remaining.filter (fun t =>
                    !(remaining.filter (fun t2 => inDegree t2 == 0)).contains t))
                  hnd hsub hdeg rfl rfl
              have hclosed2 : ∀ t ∈ remaining.filter (fun t =>
                    !(remaining.filter (fun t2 => inDegree t2 == 0)).contains t),
                  ∀ d ∈ depsWithin getDeps ats t,
                  d ∈ remaining.filter (fun t =>
                    !(remaining.filter (fun t2 => inDegree t2 == 0)).contains t) ∨
                  d ∈ placed ++ remaining.filter (fun t2 => inDegree t2 == 0) := by
                intro t ht d hd
                have htr := (hsplit t).mpr (Or.inl ht)
                rcases hclosed t htr d hd with h | h
                · rcases (hsplit d).mp h with h2 | h2
                  · exact Or.inl h2
                  · exact Or.inr (List.mem_append.mpr (Or.inr h2))
                · exact Or.inr (List.mem_append.mpr (Or.inl h))
              obtain ⟨hcov2, hprop2⟩ := ih _ _
                (placed ++ remaining.filter (fun t2 => inDegree t2 == 0))
                levels2 hnd2 hsub2 hdeg2 hclosed2 hrec
              constructor
              · intro t
                rw [List.flatten_cons, List.mem_append, hcov2 t, hsplit t]
                tauto
              · intro i t ht d hd
                cases i with
                | zero =>
                    rw [List.getD_cons_zero] at ht
                    have htr := (hsplit t).mpr (Or.inr ht)
                    rcases hclosed t htr d hd with h | h
                    · exact absurd h (hLnodeps t ht d hd)
                    · exact Or.inl h
                | succ i2 =>
                    rw [List.getD_cons_succ] at ht
                    rcases hprop2 i2 t ht d hd with h | ⟨j, hj, hdj⟩
                    · rcases List.mem_append.mp h with h2 | h2
                      · exact Or.inl h2
                      · refine Or.inr ⟨0, Nat.succ_pos _, ?_⟩
                        rw [List.getD_cons_zero]
                        exact h2
                    · refine Or.inr ⟨j + 1, Nat.succ_lt_succ hj, ?_⟩
                      rw [List.getD_cons_succ]
                      exact hdj

/-- The only error the loop ever produces carries the circular-dependency
message of the source. -/
theorem topoLoop_error_msg (adjacency : String → List String) :
    ∀ (fuel : Nat) (remaining : List String) (inDegree : String → Nat) (e : String),
      topoLoop adjacency fuel remaining inDegree = .error e →
      e = "Circular dependency detected in agent configuration" := by
  intro fuel
  induction fuel with
  | zero =>
      intro remaining inDegree e heq
      simp only [topoLoop] at heq
      by_cases hrem : remaining.isEmpty = true
      · rw [if_pos hrem] at heq
        exact absurd heq (by simp)
      · rw [if_neg hrem] at heq
        simpa using heq.symm
  | succ f ih =>
      intro remaining inDegree e heq
      simp only [topoLoop] at heq
      by_cases hrem : remaining.isEmpty = true
      · rw [if_pos hrem] at heq
        exact absurd heq (by simp)
      · rw [if_neg hrem] at heq
        by_cases hcl : (remaining.filter (fun t => inDegree t == 0)).isEmpty = true
        · rw [if_pos hcl] at heq
          simpa using heq.symm
        · rw [if_neg hcl] at heq
          cases hrec : topoLoop adjacency f
              (remaining.filter (fun t =>
                !(remaining.filter (fun t2 => inDegree t2 == 0)).contains t))
              (decLevel adjacency inDegree
                (remaining.filter (fun t2 => inDegree t2 == 0))) with
          | error e2 =>
              rw [hrec] at heq
              have he2 := ih _ _ _ hrec
              simp only [Except.error.injEq] at heq
              rw [← heq]
              exact he2
          | ok levels2 =>
              rw [hrec] at heq
              exact absurd heq (by simp)

/-- A finite non-empty set in which every element has a predecessor under
`R` contains an `R`-cycle (by pigeonhole on iterated predecessors). -/
theorem exists_cycle_of_all_have_pred {R : String → String → Prop} (S : List String)
    (hne : S ≠ []) (hpred : ∀ b ∈ S, ∃ a ∈ S, R a b) :
    ∃ t, Relation.TransGen R t t := by
  classical
  have hchoice : ∀ b, ∃ a, b ∈ S → a ∈ S ∧ R a b := by
    intro b
    by_cases hb : b ∈ S
    · obtain ⟨a, ha, hr⟩ := hpred b hb
      exact ⟨a, fun _ => ⟨ha, hr⟩⟩
    · exact ⟨b, fun h => absurd h hb⟩
  choose f hf using hchoice
  obtain ⟨b0, hb0⟩ := List.exists_mem_of_ne_nil S hne
  have hgS : ∀ n, f^[n] b0 ∈ S := by
    intro n
    induction n with
    | zero => simpa using hb0
    | succ k ihk =>
        rw [Function.iterate_succ_apply']
        exact (hf (f^[k] b0) ihk).1
  have hstep : ∀ n, R (f^[n + 1] b0) (f^[n] b0) := by
    intro n
    rw [Function.iterate_succ_apply']
    exact (hf (f^[n] b0) (hgS n)).2
  have hchain : ∀ i j, i < j → Relation.TransGen R (f^[j] b0) (f^[i] b0) := by
    intro i j hij
    induction j with
    | zero => omega
    | succ k ihk =>
        rcases Nat.lt_succ_iff_lt_or_eq.mp hij with h | h
        · exact Relation.TransGen.head (hstep k) (ihk h)
        · subst h
          exact Relation.TransGen.single (hstep i)
  have hcard : (S.toFinset).card < (Finset.univ : Finset (Fin (S.length + 1))).card := by
    rw [Finset.card_univ, Fintype.card_fin]
    exact Nat.lt_succ_of_le (List.toFinset_card_le S)
  obtain ⟨i, _, j, _, hij, heq⟩ :=
    Finset.exists_ne_map_eq_of_card_lt_of_maps_to hcard
      (fun (a : Fin (S.length + 1)) _ => List.mem_toFinset.mpr (hgS a.val))
  rcases Ne.lt_or_lt hij with h | h
  · refine ⟨f^[j.val] b0, ?_⟩
    have := hchain i.val j.val h
    rwa [heq] at this
  · refine ⟨f^[i.val] b0, ?_⟩
    have := hchain j.val i.val h
    rwa [← heq] at this

/-- If the loop throws under the loop invariants (with enough fuel), the
subset contains a dependency cycle. -/
theorem topoLoop_error_cycle (getDeps : String → List String) (ats : List String)
    (hats : ats.Nodup) :
    ∀ (fuel : Nat) (remaining : List String) (inDegree : String → Nat) (e : String),
      remaining.Nodup →
      (∀ t ∈ remaining, t ∈ ats) →
      (∀ t ∈ remaining, inDegree t =
        ((depsWithin getDeps ats t).filter (fun d => remaining.contains d)).length) →
      remaining.length ≤ fuel →
      topoLoop (buildAdjacency getDeps ats) fuel remaining inDegree = .error e →
      ∃ t, Relation.TransGen (DependsOn getDeps ats) t t := by
  intro fuel
  induction fuel with
  | zero =>
      intro remaining inDegree e hnd hsub hdeg hlen heq
      have hremnil : remaining = [] := by
        cases remaining with
        | nil => rfl
        | cons a as => simp at hlen
      subst hremnil
      simp only [topoLoop] at heq
      exact absurd heq (by simp)
  | succ f ih =>
      intro remaining inDegree e hnd hsub hdeg hlen heq
      simp only [topoLoop] at heq
      by_cases hrem : remaining.isEmpty = true
      · rw [if_pos hrem] at heq
        exact absurd heq (by simp)
      · rw [if_neg hrem] at heq
        by_cases hcl : (remaining.filter (fun t => inDegree t == 0)).isEmpty = true
        · -- stuck state: every remaining tag still has a remaining dependency
          have hremne : remaining ≠ [] := by
            intro h
            rw [h] at hrem
            exact hrem rfl
          have hpred : ∀ b ∈ remaining, ∃ a ∈ remaining,
              (fun a b => a ∈ remaining ∧ b ∈ remaining ∧
                a ∈ depsWithin getDeps ats b) a b := by
            intro b hb
            have hnz : inDegree b ≠ 0 := by
              intro h0
              have hmem : b ∈ remaining.filter (fun t => inDegree t == 0) :=
                List.mem_filter.mpr ⟨hb, by simp [h0]⟩
              rw [List.isEmpty_iff.mp hcl] at hmem
              cases hmem
            have hpos : 0 < ((depsWithin getDeps ats b).filter
                (fun d => remaining.contains d)).length := by
              rcases Nat.eq_zero_or_pos ((depsWithin getDeps ats b).filter
                  (fun d => remaining.contains d)).length with h | h
              · exact absurd ((hdeg b hb).trans h) hnz
              · exact h
            obtain ⟨a, ha⟩ := List.exists_mem_of_length_pos hpos
            have ha2 := List.mem_filter.mp ha
            exact ⟨a, (contains_true_iff _ _).mp ha2.2,
              (contains_true_iff _ _).mp ha2.2, hb, ha2.1⟩
          obtain ⟨t, ht⟩ := exists_cycle_of_all_have_pred remaining hremne hpred
          refine ⟨t, Relation.TransGen.mono ?_ ht⟩
          rintro a b ⟨ha, hb, hd⟩
          exact ⟨hsub a ha, hsub b hb, (List.mem_filter.mp hd).1⟩
        · rw [if_neg hcl] at heq
          cases hrec : topoLoop (buildAdjacency getDeps ats) f
              (remaining.filter (fun t =>
                !(remaining.filter (fun t2 => inDegree t2 == 0)).contains t))
              (decLevel (buildAdjacency getDeps ats) inDegree
                (remaining.filter (fun t2 => inDegree t2 == 0))) with
          | ok levels2 =>
              rw [hrec] at heq
              exact absurd heq (by simp)
          | error e2 =>
              obtain ⟨hnd2, hsub2, hsplit, hdisj, hdeg2, hLnodeps⟩ :=
                topo_step_invariants getDeps ats hats remaining inDegree
                  (remaining.filter (fun t2 => inDegree t2 == 0))
                  (remaining.filter (fun t =>
                    !(remaining.filter (fun t2 => inDegree t2 == 0)).contains t))
                  hnd hsub hdeg rfl rfl
              have hlen2 : (remaining.filter (fun t =>
                  !(remaining.filter (fun t2 => inDegree t2 == 0)).contains t)).length ≤ f := by
                have hLne : remaining.filter (fun t2 => inDegree t2 == 0) ≠ [] := by
                  intro h
                  rw [h] at hcl
                  exact hcl rfl
                obtain ⟨x, hx⟩ := List.exists_mem_of_ne_nil _ hLne
                have hxr : x ∈ remaining := (List.mem_filter.mp hx).1
                have hxf : (fun t =>
                    !(remaining.filter (fun t2 => inDegree t2 == 0)).contains t) x = false := by
                  simp only [Bool.not_eq_false']
                  exact (contains_true_iff _ _).mpr hx
                have := length_filter_lt (fun t =>
                  !(remaining.filter (fun t2 => inDegree t2 == 0)).contains t)
                  remaining x hxr hxf
                omega
              exact ih _ _ e2 hnd2 hsub2 hdeg2 hlen2 hrec

/-- C5: for every duplicate-free subset of tags (with an arbitrary
dependency registry `getDeps`; the source instantiates it with the agent
registry's `getAgentDependencies`): (1) whenever `topologicalSortAgents`
returns levels, they cover exactly the subset and every dependency of a
tag lying within the subset appears in a strictly earlier level
(dependencies outside the subset are treated as satisfied); (2) on every
subset whose restricted dependency relation is acyclic it succeeds; and
(3) on every subset containing a dependency cycle it fails with the
circular-dependency error instead of returning a level assignment. -/
theorem topologicalSortAgents_correct (getDeps : String → List String)
    (agentTypes : List String) (hnd : agentTypes.Nodup) :
    (∀ levels, topologicalSortAgents getDeps agentTypes = .ok levels →
       (∀ t, t ∈ levels.flatten ↔ t ∈ agentTypes) ∧
       (∀ i t, t ∈ levels.getD i [] → ∀ d, d ∈ getDeps t → d ∈ agentTypes →
          ∃ j, j < i ∧ d ∈ levels.getD j [])) ∧
    ((∀ t, ¬ Relation.TransGen (DependsOn getDeps agentTypes) t t) →
       ∃ levels, topologicalSortAgents getDeps agentTypes = .ok levels) ∧
    ((∃ t, Relation.TransGen (DependsOn getDeps agentTypes) t t) →
       topologicalSortAgents getDeps agentTypes =
         .error ("Circular dependency detected in agent configuration")) := by
  have hdeg0 : ∀ t ∈ agentTypes, initInDegree getDeps agentTypes t =
      ((depsWithin getDeps agentTypes t).filter (fun d => agentTypes.contains d)).length := by
    intro t ht
    unfold initInDegree
    rw [if_pos ((contains_true_iff _ _).mpr ht)]
    have hself : (depsWithin getDeps agentTypes t).filter (fun d => agentTypes.contains d)
        = depsWithin getDeps agentTypes t := by
      apply List.filter_eq_self.mpr
      intro d hdmem
      exact List.of_mem_filter hdmem
    rw [hself]
  have hclosed0 : ∀ t ∈ agentTypes, ∀ d ∈ depsWithin getDeps agentTypes t,
      d ∈ agentTypes ∨ d ∈ ([] : List String) := by
    intro t _ d hd
    exact Or.inl ((contains_true_iff _ _).mp (List.of_mem_filter hd))
  have hOk : ∀ levels, topologicalSortAgents getDeps agentTypes = .ok levels →
      (∀ t, t ∈ levels.flatten ↔ t ∈ agentTypes) ∧
      (∀ i t, t ∈ levels.getD i [] → ∀ d, d ∈ getDeps t → d ∈ agentTypes →
        ∃ j, j < i ∧ d ∈ levels.getD j []) := by
    intro levels heq
    obtain ⟨hcov, hprop⟩ := topoLoop_ok_spec getDeps agentTypes hnd agentTypes.length
      agentTypes (initInDegree getDeps agentTypes) [] levels hnd (fun t ht => ht)
      hdeg0 hclosed0 heq
    refine ⟨hcov, ?_⟩
    intro i t ht d hd hdats
    have hdw : d ∈ depsWithin getDeps agentTypes t :=
      List.mem_filter.mpr ⟨hd, (contains_true_iff _ _).mpr hdats⟩
    rcases hprop i t ht d hdw with h | h
    · cases h
    · exact h
  refine ⟨hOk, ?_, ?_⟩
  · intro hnc
    cases hres : topologicalSortAgents getDeps agentTypes with
    | ok levels => exact ⟨levels, rfl⟩
    | error e =>
        obtain ⟨t, ht⟩ := topoLoop_error_cycle getDeps agentTypes hnd agentTypes.length
          agentTypes (initInDegree getDeps agentTypes) e hnd (fun t ht => ht) hdeg0
          (le_refl _) hres
        exact absurd ht (hnc t)
  · rintro ⟨t0, hcyc⟩
    cases hres : topologicalSortAgents getDeps agentTypes with
    | error e =>
        have hmsg := topoLoop_error_msg (buildAdjacency getDeps agentTypes)
          agentTypes.length agentTypes (initInDegree getDeps agentTypes) e hres
        rw [hmsg]
    | ok levels =>
        exfalso
        obtain ⟨hcov, hprop⟩ := hOk levels hres
        have hex : ∀ t, t ∈ agentTypes → ∃ i, t ∈ levels.getD i [] := by
          intro t ht
          have hfl : t ∈ levels.flatten := (hcov t).mpr ht
          rcases List.mem_flatten.mp hfl with ⟨l, hl, htl⟩
          rcases List.mem_iff_getElem.mp hl with ⟨i, hilen, hget⟩
          refine ⟨i, ?_⟩
          have hgd : levels.getD i [] = l := by
            rw [List.getD_eq_getElem?_getD, List.getElem?_eq_getElem hilen, hget]
            rfl
          rw [hgd]
          exact htl
        classical
        obtain ⟨rank, hrank⟩ : ∃ rank : String → Nat, ∀ t (h : t ∈ agentTypes),
            t ∈ levels.getD (rank t) [] ∧ ∀ j, t ∈ levels.getD j [] → rank t ≤ j := by
          refine ⟨fun t => if h : t ∈ agentTypes then Nat.find (hex t h) else 0, ?_⟩
          intro t h
          dsimp only
          rw [dif_pos h]
          exact ⟨Nat.find_spec (hex t h), fun j hj => Nat.find_min' (hex t h) hj⟩
        have hedge : ∀ a b, DependsOn getDeps agentTypes a b → rank a < rank b := by
          rintro a b ⟨ha, hb, hd⟩
          obtain ⟨hbmem, _⟩ := hrank b hb
          obtain ⟨j, hj, hdj⟩ := hprop (rank b) b hbmem a hd ha
          exact lt_of_le_of_lt ((hrank a ha).2 j hdj) hj
        have hmono : ∀ a b, Relation.TransGen (DependsOn getDeps agentTypes) a b →
            rank a < rank b := by
          intro a b h
          induction h with
          | single h1 => exact hedge _ _ h1
          | tail h1 h2 ih => exact lt_trans ih (hedge _ _ h2)
        exact lt_irrefl _ (hmono t0 t0 hcyc)

/-- Witness for C5 at the real registry (`getAgentDependencies`) and the
subset consisting of PM and ARCHITECT: the computed levels cover the
subset. -/
theorem topologicalSortAgents_correct_witness :
    ("ARCHITECT" ∈ ([["PM"], ["ARCHITECT"]] : List (List String)).flatten) ↔
      "ARCHITECT" ∈ (["PM", "ARCHITECT"] : List String) :=
  (((topologicalSortAgents_correct getAgentDependencies ["PM", "ARCHITECT"]
    (by decide)).1 [["PM"], ["ARCHITECT"]] (by rfl)).1) "ARCHITECT"

end AppBuilder
